import Mathlib

/-! # PrintWatch client: delivery pipeline, pending queue and record parsing

A shallow embedding of `src/main.go` (the PaperCut log watcher).  Stateful code is
written in state-passing style over a `World`: the part of the machine the program owns
(the pending directory, the offset map), the trace of its HTTP exchanges and file writes,
and the state of everything outside the program (collector, clock, network interfaces,
the log files), which is only reached through the oracle functions of `Env`.

Conventions of the model:

* Library functions of the Go standard library are modelled from their documented
  behaviour (`strings.TrimSpace`, `strconv.Atoi`, `filepath.Ext` on Windows,
  `time.Parse` and `Time.Format` for the layouts the program uses).  The JSON codec
  (`Json`), `filepath.Join` and the CSV reader (`FileLib`) are parameters.
* Strings are Lean strings, so every string is valid Unicode; `json.Marshal` cannot
  fail on a `PrintData`, and that error branch is left out.
* The pending directory is a list of entries with their data.  Listing it, reading a
  listed regular file and removing a listed file succeed; a write succeeds when the
  outside world lets it (`Env.writeFile`) and the name is not that of a directory.
* Log output (`globalLogger.Println`) is not modelled.
-/

namespace PrintWatch

/-! ## Data model -/

/-- Config: the content of config.json. -/
structure Config where
  Setor : String
  IDEmpresa : Int
  PapercutLogDir : String
  ApiBaseURL : String
  PollingInterval : Int
deriving DecidableEq, Repr

/-- PrintData: the JSON payload sent to the API, one print event. -/
structure PrintData where
  Data : String
  Hora : String
  Usuario : String
  Setor : String
  Paginas : Int
  Copias : Int
  Impressora : String
  NomeArquivo : String
  Tipo : String
  NomePC : String
  TipoPage : String
  Cor : String
  Tamanho : String
  IP : String
  MAC : String
  IDEmpresa : Int
deriving DecidableEq, Repr

/-! ## The outside world -/

/-- Outcome of one HTTP POST as the client sees it: `transportError` when `Post` returns
an error, otherwise the status code and the body (`none` when reading the body fails). -/
inductive HttpResult where
  | transportError
  | response (statusCode : Nat) (body : Option String)
deriving DecidableEq, Repr

/-- One interaction of the program with the outside, as recorded in the trace:
an HTTP POST (the URL, the event that is its JSON body, and what came back), or an
`os.WriteFile` into the pending directory (file name, data, and whether it succeeded). -/
inductive IOEvent where
  | post (url : String) (payload : PrintData) (result : HttpResult)
  | write (name : String) (data : String) (ok : Bool)
deriving DecidableEq, Repr

/-- The JSON codec of `encoding/json`, as far as the program uses it.
`unmarshalStatus body` is `json.Unmarshal` into `struct { Status string }`: `none` on a
decoding error, otherwise the decoded `Status`.  `unmarshalPrintData` is `json.Unmarshal`
into a `PrintData`; `marshalIndent` is `json.MarshalIndent(data, "", "  ")`. -/
structure Json where
  marshalIndent : PrintData → String
  unmarshalPrintData : String → Option PrintData
  unmarshalStatus : String → Option String

/-- Result of os.OpenFile on a log file, with the bytes the file holds when opened. -/
inductive OpenResult where
  | notExist
  | failed
  | opened (content : List UInt8)

/-- Result of one `Read` of the CSV reader before end of file: a record or an error. -/
inductive ReadResult where
  | record (fields : List String)
  | error
deriving DecidableEq, Repr

/-- Library functions on files, taken as parameters: `filepath.Join`, and the sequence
of results that successive `Read` calls of a `csv.Reader` (comma separated, lazy quotes,
any number of fields) give on a byte stream until it reports end of file. -/
structure FileLib where
  join : String → String → String
  csvReadAll : List UInt8 → List ReadResult

/-- Oracles for everything outside the program, over a state `σ` of the outside world:
the answer to an HTTP POST, the clock (`time.Now().UnixNano()`), the host's address pair
found by `getNetworkInfo` (`none` when no suitable interface exists), whether an
`os.WriteFile` to the given path goes through, today's date as
`time.Now().Format("2006-01-02")`, and the opening of a log file. -/
structure Env (σ : Type) where
  post : String → PrintData → σ → HttpResult × σ
  unixNano : σ → Int × σ
  networkInfo : σ → Option (String × String) × σ
  writeFile : String → σ → Bool × σ
  today : σ → String × σ
  openLog : String → σ → OpenResult × σ

/-- An entry of the pending directory as `os.ReadDir` lists it, with the file's data. -/
structure DirEntry where
  name : String
  isDir : Bool
  content : String
deriving DecidableEq, Repr

/-- State threaded through the program: the outside world, the trace of interactions so
far (oldest first), the entries of `pendingDir`, and the `lastReadOffsets` map. -/
structure World (σ : Type) where
  ext : σ
  trace : List IOEvent
  pending : List DirEntry
  lastReadOffsets : String → Option Nat

/-- Status code of a result, when there is a response. -/
def HttpResult.statusCode? : HttpResult → Option Nat
  | .transportError => none
  | .response code _ => some code

/-- Body of a result, when there is a response and its body could be read. -/
def HttpResult.body? : HttpResult → Option String
  | .transportError => none
  | .response _ body => body

/-- The exchange failed below HTTP: the POST itself failed, or reading the body did. -/
def HttpResult.transportFailed : HttpResult → Bool
  | .transportError => true
  | .response _ none => true
  | .response _ (some _) => false

/-- The trace entry is a POST to the given URL. -/
def IOEvent.isPostTo (url : String) : IOEvent → Bool
  | .post u _ _ => u = url
  | .write _ _ _ => false

/-- Value of http.StatusOK. -/
def StatusOK : Nat := 200

/-- Value of http.StatusCreated. -/
def StatusCreated : Nat := 201

/-- Errors returned by the two API helpers. -/
inductive ApiError where
  | postFailed
  | badStatus (code : Nat)
  | readBodyFailed
deriving DecidableEq, Repr

/-! ## Delivery client -/

variable {σ : Type}

/-- Issue one POST: ask the outside world and record the request in the trace. -/
def httpPost (E : Env σ) (url : String) (data : PrintData) (w : World σ) :
    HttpResult × World σ :=
  let r := E.post url data w.ext
  (r.1, { w with ext := r.2, trace := w.trace ++ [.post url data r.1] })

/-- The part of verifyImpressionExists after the POST (main.go 647-682): what the
response means. -/
def verifyResponse (J : Json) : HttpResult → Except ApiError Bool
  | .transportError => .error .postFailed
  | .response code body =>
    if code ≠ StatusOK then .error (.badStatus code)
    else
      match body with
      | none => .error .readBodyFailed
      | some bodyBytes =>
        match J.unmarshalStatus bodyBytes with
        | none => .ok false
        | some status => if status = "true" then .ok true else .ok false

/-- verifyImpressionExists (main.go 637-683): POST the event to the verify endpoint. -/
def verifyImpressionExists (J : Json) (E : Env σ) (verifyApiEndpoint : String)
    (data : PrintData) (w : World σ) : Except ApiError Bool × World σ :=
  let r := httpPost E verifyApiEndpoint data w
  (verifyResponse J r.1, r.2)

/-- The part of sendDataToAPI after the POST (main.go 695-706). -/
def sendResponse : HttpResult → Except ApiError Unit
  | .transportError => .error .postFailed
  | .response code _ =>
    if code ≠ StatusOK ∧ code ≠ StatusCreated then .error (.badStatus code) else .ok ()

/-- sendDataToAPI (main.go 686-707): POST the event to the ingest endpoint. -/
def sendDataToAPI (E : Env σ) (apiEndpoint : String) (data : PrintData) (w : World σ) :
    Except ApiError Unit × World σ :=
  let r := httpPost E apiEndpoint data w
  (sendResponse r.1, r.2)

/-- URL of the verify endpoint. -/
def verifyURL (cfg : Config) : String := cfg.ApiBaseURL ++ "/central/verifyimpression"

/-- URL of the ingest endpoint. -/
def sendURL (cfg : Config) : String := cfg.ApiBaseURL ++ "/central/receptprintreq"

/-- tryProcessImpression (main.go 403-425): verify, then send unless the event exists. -/
def tryProcessImpression (J : Json) (E : Env σ) (cfg : Config) (data : PrintData)
    (w : World σ) : Bool × World σ :=
  let v := verifyImpressionExists J E (verifyURL cfg) data w
  match v.1 with
  | .error _ => (false, v.2)
  | .ok true => (true, v.2)
  | .ok false =>
    let s := sendDataToAPI E (sendURL cfg) data v.2
    match s.1 with
    | .error _ => (false, s.2)
    | .ok _ => (true, s.2)

/-! ## Pending queue -/

/-- strings.HasSuffix. -/
def HasSuffix (s suffix : String) : Bool := suffix.data.isSuffixOf s.data

/-- os.ReadFile on a file of the pending directory: the data of the entry of that name,
`none` (an error) when there is no such entry or it is a directory. -/
def readFile (dir : List DirEntry) (name : String) : Option String :=
  match dir.find? (fun e => e.name = name) with
  | some e => if e.isDir then none else some e.content
  | none => none

/-- os.Remove of a name in the pending directory. -/
def removeFile (dir : List DirEntry) (name : String) : List DirEntry :=
  dir.filter (fun e => e.name ≠ name)

/-- os.WriteFile in the pending directory, when it goes through: an existing file of
that name is truncated and rewritten, otherwise a new file is created. -/
def writeFile (dir : List DirEntry) (name data : String) : List DirEntry :=
  if dir.any (fun e => e.name = name) then
    dir.map (fun e => if e.name = name then { e with content := data } else e)
  else dir ++ [{ name := name, isDir := false, content := data }]

/-- Name of a pending record: fmt.Sprintf("%d.json", time.Now().UnixNano()). -/
def pendingFileName (nano : Int) : String := toString nano ++ ".json"

/-- savePendingImpression (main.go 439-454): write the event to a file named by the
clock.  The write fails when the outside world refuses it or the name is a directory;
`true` is a nil error. -/
def savePendingImpression (J : Json) (E : Env σ) (data : PrintData) (w : World σ) :
    Bool × World σ :=
  let t := E.unixNano w.ext
  let fileName := pendingFileName t.1
  let jsonData := J.marshalIndent data
  let wr := E.writeFile fileName t.2
  let ok := wr.1 && !(w.pending.any (fun e => e.name = fileName && e.isDir))
  (ok, { w with
    ext := wr.2
    trace := w.trace ++ [.write fileName jsonData ok]
    pending := if ok then writeFile w.pending fileName jsonData else w.pending })

/-- Body of the loop of processPendingImpressions (main.go 471-502) for one listed
entry. -/
def processPendingFile (J : Json) (E : Env σ) (cfg : Config) (w : World σ)
    (file : DirEntry) : World σ :=
  if file.isDir || !HasSuffix file.name ".json" then w
  else
    match readFile w.pending file.name with
    | none => w
    | some fileData =>
      match J.unmarshalPrintData fileData with
      | none => { w with pending := removeFile w.pending file.name }
      | some printData =>
        let t := tryProcessImpression J E cfg printData w
        if t.1 then { t.2 with pending := removeFile t.2.pending file.name } else t.2

/-- processPendingImpressions (main.go 457-503): list the pending directory once, then
handle each listed entry in turn. -/
def processPendingImpressions (J : Json) (E : Env σ) (cfg : Config) (w : World σ) :
    World σ :=
  w.pending.foldl (processPendingFile J E cfg) w

/-! ## Go library functions used by the record parser -/

/-- unicode.IsSpace: the Unicode White_Space property. -/
def isSpace (c : Char) : Bool :=
  let n := c.toNat
  (9 ≤ n && n ≤ 13) || n = 0x20 || n = 0x85 || n = 0xA0 || n = 0x1680 ||
  (0x2000 ≤ n && n ≤ 0x200A) || n = 0x2028 || n = 0x2029 || n = 0x202F ||
  n = 0x205F || n = 0x3000

/-- strings.TrimSpace: drop all leading and trailing white space. -/
def TrimSpace (s : String) : String :=
  ⟨((s.data.dropWhile isSpace).reverse.dropWhile isSpace).reverse⟩

/-- strings.TrimPrefix. -/
def TrimPrefix (s pre : String) : String :=
  if pre.data.isPrefixOf s.data then ⟨s.data.drop pre.data.length⟩ else s

/-- os.IsPathSeparator on Windows, the only target of the program. -/
def IsPathSeparator (c : Char) : Bool := c = '\\' || c = '/'

/-- The backward scan of filepath.Ext over the reversed path: `acc` is the suffix
already passed. -/
def extScan : List Char → List Char → List Char
  | [], _ => []
  | c :: rest, acc =>
    if IsPathSeparator c then []
    else if c = '.' then c :: acc
    else extScan rest (c :: acc)

/-- filepath.Ext: the suffix beginning at the final dot in the final element of
the path; empty if there is no dot. -/
def Ext (path : String) : String := ⟨extScan path.data.reverse []⟩

/-- ASCII decimal digit test. -/
def isDigit (c : Char) : Bool := 48 ≤ c.toNat && c.toNat ≤ 57

/-- Value of an ASCII decimal digit. -/
def digitVal (c : Char) : Nat := c.toNat - 48

/-- Value of a string of decimal digits. -/
def digitsVal (ds : List Char) : Nat := ds.foldl (fun a c => 10 * a + digitVal c) 0

/-- Size in bits of Go's int on the 64-bit Windows target. -/
def intSize : Nat := 64

/-- strconv.Atoi: an optional sign, then one or more decimal digits; `none` on a
syntax error or when the value is out of the range of int. -/
def Atoi (s : String) : Option Int :=
  let body : Bool × List Char :=
    match s.data with
    | '-' :: t => (true, t)
    | '+' :: t => (false, t)
    | t => (false, t)
  if body.2.isEmpty || !body.2.all isDigit then none
  else
    let v : Int := if body.1 then -(digitsVal body.2 : Int) else (digitsVal body.2 : Int)
    if v < -(2 ^ (intSize - 1) : Int) || (2 ^ (intSize - 1) : Int) ≤ v then none
    else some v

/-- A calendar time as time.Parse builds it from the layout "2006-01-02 15:04:05"
(the fractional second, which no later formatting shows, is dropped). -/
structure Time where
  year : Nat
  month : Nat
  day : Nat
  hour : Nat
  min : Nat
  sec : Nat
deriving DecidableEq, Repr

/-- Function getnum of package time: a one or two digit number; two digits are
required when `fixed`. -/
def getnum (s : List Char) (fixed : Bool) : Option (Nat × List Char) :=
  match s with
  | [] => none
  | [a] => if !isDigit a then none else if fixed then none else some (digitVal a, [])
  | a :: b :: rest =>
    if !isDigit a then none
    else if !isDigit b then (if fixed then none else some (digitVal a, b :: rest))
    else some (digitVal a * 10 + digitVal b, rest)

/-- Function skip of package time for a one-character literal of the layout other
than a space. -/
def skipChar (c : Char) : List Char → Option (List Char)
  | [] => none
  | x :: rest => if x = c then some rest else none

/-- Function skip of package time for the space of the layout: it matches a run of
spaces in the value (and the end of the value). -/
def skipSpace : List Char → Option (List Char)
  | [] => some []
  | x :: rest => if x ≠ ' ' then none else some ((x :: rest).dropWhile (fun c => c = ' '))

/-- The fractional second that time.Parse accepts after the seconds even though the
layout has none: a period or comma followed by digits (of any number, as in current Go
releases). -/
def skipFraction : List Char → List Char
  | p :: d :: rest =>
    if (p = '.' || p = ',') && isDigit d then rest.dropWhile isDigit else p :: d :: rest
  | v => v

/-- Function isLeap of package time. -/
def isLeap (year : Nat) : Bool := year % 4 = 0 && (year % 100 ≠ 0 || year % 400 = 0)

/-- Function daysIn of package time. -/
def daysIn (month year : Nat) : Nat :=
  if month = 2 then (if isLeap year then 29 else 28)
  else if month = 4 || month = 6 || month = 9 || month = 11 then 30 else 31

/-- time.Parse("2006-01-02 15:04:05", value): `none` when it returns an error. -/
def timeParse (value : String) : Option Time := do
  let v := value.data
  if v.length < 4 || !(v.take 4).all isDigit then none
  let year := digitsVal (v.take 4)
  let v ← skipChar '-' (v.drop 4)
  let (month, v) ← getnum v true
  if month = 0 || 12 < month then none
  let v ← skipChar '-' v
  let (day, v) ← getnum v true
  let v ← skipSpace v
  let (hour, v) ← getnum v false
  if 24 ≤ hour then none
  let v ← skipChar ':' v
  let (min, v) ← getnum v true
  if 60 ≤ min then none
  let v ← skipChar ':' v
  let (sec, v) ← getnum v true
  if 60 ≤ sec then none
  let v := skipFraction v
  if !v.isEmpty then none
  if day < 1 || daysIn month year < day then none
  pure { year := year, month := month, day := day, hour := hour, min := min, sec := sec }

/-- The character of a decimal digit. -/
def digitChar (d : Nat) : Char := Char.ofNat (48 + d % 10)

/-- Two decimal digits, zero padded (values below 100). -/
def pad2 (n : Nat) : List Char := [digitChar (n / 10), digitChar n]

/-- Four decimal digits, zero padded (values below 10000). -/
def pad4 (n : Nat) : List Char :=
  [digitChar (n / 1000), digitChar (n / 100), digitChar (n / 10), digitChar n]

/-- Time.Format("2006-01-02"). -/
def formatDate (t : Time) : String := ⟨pad4 t.year ++ '-' :: pad2 t.month ++ '-' :: pad2 t.day⟩

/-- Time.Format("15:04:05"). -/
def formatClock (t : Time) : String := ⟨pad2 t.hour ++ ':' :: pad2 t.min ++ ':' :: pad2 t.sec⟩

/-! ## Log tailing and record parsing -/

/-- getPapercutLogPath (main.go 396-400), from the day already formatted. -/
def getPapercutLogPath (F : FileLib) (logDir day : String) : String :=
  F.join logDir ("papercut-print-log-" ++ day ++ ".csv")

/-- getNetworkInfo (main.go 710-760) as its caller sees it: the address pair, empty
strings when none is found. -/
def getNetworkInfo (E : Env σ) (w : World σ) : (String × String) × World σ :=
  let r := E.networkInfo w.ext
  (r.1.getD ("", ""), { w with ext := r.2 })

/-- Field `i` of a record. -/
def field (record : List String) (i : Nat) : String := record.getD i ""

/-- The event built from a record whose timestamp parsed (main.go 573-612). -/
def mkPrintData (cfg : Config) (record : List String) (parsedTime : Time)
    (ip mac : String) : PrintData :=
  let paginas := (Atoi (TrimSpace (field record 2))).getD 0
  let copias := (Atoi (TrimSpace (field record 3))).getD 1
  let documentName := TrimSpace (field record 5)
  let fileExtension := TrimPrefix (Ext documentName) "."
  { Data := formatDate parsedTime
    Hora := formatClock parsedTime
    Usuario := TrimSpace (field record 1)
    Setor := cfg.Setor
    Paginas := paginas
    Copias := copias
    Impressora := TrimSpace (field record 4)
    NomeArquivo := documentName
    Tipo := fileExtension
    NomePC := TrimSpace (field record 6)
    TipoPage := TrimSpace (field record 7)
    Cor := TrimSpace (field record 12)
    Tamanho := TrimSpace (field record 13)
    IP := ip
    MAC := mac
    IDEmpresa := cfg.IDEmpresa }

/-- The two checks a record must pass (main.go 560-571): at least 14 fields and a
timestamp that parses; gives the parsed time. -/
def acceptRecord (record : List String) : Option Time :=
  if record.length < 14 then none else timeParse (TrimSpace (field record 0))

/-- Body of the row loop of processPapercutLogs for one record (main.go 558-622). -/
def processRecord (J : Json) (E : Env σ) (cfg : Config) (w : World σ)
    (record : List String) : World σ :=
  match acceptRecord record with
  | none => w
  | some parsedTime =>
    let n := getNetworkInfo E w
    let printData := mkPrintData cfg record parsedTime n.1.1 n.1.2
    let t := tryProcessImpression J E cfg printData n.2
    if t.1 then t.2 else (savePendingImpression J E printData t.2).2

/-- Body of the row loop for one result of the reader (main.go 549-622): a read error
skips the row. -/
def processRead (J : Json) (E : Env σ) (cfg : Config) (w : World σ) :
    ReadResult → World σ
  | .error => w
  | .record fields => processRecord J E cfg w fields

/-- The row loop of processPapercutLogs (main.go 548-623). -/
def processRows (J : Json) (E : Env σ) (cfg : Config) (rows : List ReadResult)
    (w : World σ) : World σ :=
  rows.foldl (processRead J E cfg) w

/-- Errors returned by processPapercutLogs. -/
inductive LogError where
  | openFailed
  | headerFailed
deriving DecidableEq, Repr

/-- The rows left for the loop after the header step (main.go 540-545): at offset 0 the
first read is discarded; `none` when that read fails. -/
def skipHeader (currentOffset : Nat) (results : List ReadResult) :
    Option (List ReadResult) :=
  if currentOffset = 0 then
    match results with
    | [] => some []
    | .error :: _ => none
    | .record _ :: rest => some rest
  else some results

/-- processPapercutLogs (main.go 506-634): read today's log from the stored offset,
process every row, and store the new offset.  `none` is a nil error. -/
def processPapercutLogs (J : Json) (F : FileLib) (E : Env σ) (cfg : Config)
    (w : World σ) : Option LogError × World σ :=
  let d := E.today w.ext
  let papercutLogPath := getPapercutLogPath F cfg.PapercutLogDir d.1
  let o := E.openLog papercutLogPath d.2
  let w1 : World σ := { w with ext := o.2 }
  match o.1 with
  | .notExist => (none, w1)
  | .failed => (some .openFailed, w1)
  | .opened content =>
    let currentOffset := (w1.lastReadOffsets papercutLogPath).getD 0
    match skipHeader currentOffset (F.csvReadAll (content.drop currentOffset)) with
    | none => (some .headerFailed, w1)
    | some rows =>
      let w2 := processRows J E cfg rows w1
      (none, { w2 with
        lastReadOffsets :=
          Function.update w2.lastReadOffsets papercutLogPath
            (some (max currentOffset content.length)) })

/-! ## Sequences of passes -/

/-- The two phases of a cycle. -/
inductive Op where
  | tail
  | drain
deriving DecidableEq, Repr

/-- One phase. -/
def runOp (J : Json) (F : FileLib) (E : Env σ) (cfg : Config) (w : World σ) :
    Op → World σ
  | .tail => (processPapercutLogs J F E cfg w).2
  | .drain => processPendingImpressions J E cfg w

/-- A sequence of phases, in order. -/
def runOps (J : Json) (F : FileLib) (E : Env σ) (cfg : Config) (ops : List Op)
    (w : World σ) : World σ :=
  ops.foldl (runOp J F E cfg) w

/-! ## Specification vocabulary: events of a pass, concrete rows -/

/-- Split at the commas; `cur` is the field being read, reversed. -/
def splitCommas : List Char → List Char → List String
  | [], cur => [⟨cur.reverse⟩]
  | c :: rest, cur =>
    if c = ',' then ⟨cur.reverse⟩ :: splitCommas rest [] else splitCommas rest (c :: cur)

/-- The fields `encoding/csv` reads from a line that holds no quote, carriage return or
line feed: the pieces between the commas. -/
def csvFields (line : String) : List String := splitCommas line.data []

/-- The events of the verify requests of a trace, in order: the events that were handed
to tryProcessImpression. -/
def handedEvents (cfg : Config) (trace : List IOEvent) : List PrintData :=
  trace.filterMap fun x =>
    match x with
    | .post u d _ => if u = verifyURL cfg then some d else none
    | .write _ _ _ => none

/-- The records among the results of the reader that pass both checks of the row loop,
in row order. -/
def acceptedRecords (rows : List ReadResult) : List (List String) :=
  rows.filterMap fun r =>
    match r with
    | .record fields => if (acceptRecord fields).isSome then some fields else none
    | .error => none

/-- The rows that the loop of processPapercutLogs goes through in the pass that starts
in world `w`: what the reader yields from the stored offset on, less the header when the
offset is 0; no row when the file cannot be opened or the header read fails. -/
def tailRows (F : FileLib) (E : Env σ) (cfg : Config) (w : World σ) : List ReadResult :=
  let d := E.today w.ext
  let papercutLogPath := getPapercutLogPath F cfg.PapercutLogDir d.1
  match (E.openLog papercutLogPath d.2).1 with
  | .opened content =>
    let currentOffset := (w.lastReadOffsets papercutLogPath).getD 0
    (skipHeader currentOffset (F.csvReadAll (content.drop currentOffset))).getD []
  | _ => []

/-- Configuration of the scenario of the specification: sector "Finance", company 7. -/
def cfgScenario : Config :=
  { Setor := "Finance", IDEmpresa := 7, PapercutLogDir := "C:\\logs",
    ApiBaseURL := "http://localhost:3005", PollingInterval := 10 }

/-- The row of the scenario of the specification. -/
def rowScenario : List String :=
  csvFields "2024-01-05 09:00:00,alice,3,2,HP1,report.pdf,PC1,A4,EN,0,0,0,GRAYSCALE,120KB"

/-- A row the program accepts whose fields carry white space, a one-digit hour and a
fractional second. -/
def rowLoose : List String :=
  csvFields "2024-01-05 9:00:00.5, alice ,3,2,HP1,report.pdf,PC1,A4,EN,0,0,0,GRAYSCALE,120KB"

/-- A row whose page and copy counts are negative numbers. -/
def rowNegative : List String :=
  csvFields "2024-01-05 09:00:00,alice,-3,-2,HP1,report.pdf,PC1,A4,EN,0,0,0,GRAYSCALE,120KB"

/-- A row whose document name has an upper-case extension. -/
def rowUpper : List String :=
  csvFields "2024-01-05 09:00:00,alice,3,2,HP1,REPORT.PDF,PC1,A4,EN,0,0,0,GRAYSCALE,120KB"

/-! ## Collectors -/

/-- A collector, seen through the two endpoints, whose verify endpoint reports existence
exactly for the events it has ingested: `ingested s d` says that in state `s` of the
outside world the collector holds event `d`; the verify endpoint answers with that, and
leaves it as it is, and an event that the ingest endpoint accepts is ingested. -/
structure FaithfulCollector (J : Json) (E : Env σ) (cfg : Config)
    (ingested : σ → PrintData → Bool) : Prop where
  verify_reports : ∀ s d, verifyResponse J (E.post (verifyURL cfg) d s).1 = .ok (ingested s d)
  verify_keeps : ∀ s d d2, ingested (E.post (verifyURL cfg) d s).2 d2 = ingested s d2
  send_ingests : ∀ s d, sendResponse (E.post (sendURL cfg) d s).1 = .ok () →
    ingested (E.post (sendURL cfg) d s).2 d = true

/-- Body of a verify answer saying that the event exists. -/
def bodyTrue : String := "\x7b\"status\":\"true\"\x7d"

/-- Body of a verify answer saying that the event does not exist. -/
def bodyFalse : String := "\x7b\"status\":\"false\"\x7d"

/-- The event of the scenario row. -/
def eventScenario : PrintData :=
  mkPrintData cfgScenario rowScenario ⟨2024, 1, 5, 9, 0, 0⟩ "10.0.0.5" "aa:bb:cc:dd:ee:ff"

/-- A small JSON codec for concrete runs: it decodes the two verify bodies above, and
writes and reads back the event of the scenario. -/
def jsonToy : Json :=
  { marshalIndent := fun d => if d = eventScenario then "scenario" else "other"
    unmarshalPrintData := fun s => if s = "scenario" then some eventScenario else none
    unmarshalStatus := fun b =>
      if b = bodyTrue then some "true" else if b = bodyFalse then some "false" else none }

/-- A collector that keeps the list of the events it has ingested; `sendStatus` is the
status with which its ingest endpoint answers, and it ingests when that is 200 or 201.
The clock of this world stands still at `clock`, the host has one address pair, and
there is no log file. -/
def listCollector (sendStatus : Nat) (clock : Int) : Env (List PrintData) :=
  { post := fun url d s =>
      if url = verifyURL cfgScenario then
        (.response 200 (some (if d ∈ s then bodyTrue else bodyFalse)), s)
      else if url = sendURL cfgScenario then
        (.response sendStatus (some ""),
          if sendStatus = 200 ∨ sendStatus = 201 then d :: s else s)
      else (.response 404 none, s)
    unixNano := fun s => (clock, s)
    networkInfo := fun s => (some ("10.0.0.5", "aa:bb:cc:dd:ee:ff"), s)
    writeFile := fun _ s => (true, s)
    today := fun s => ("2024-01-05", s)
    openLog := fun _ s => (.notExist, s) }

/-- A world with nothing in it: the collector has ingested nothing, nothing is pending,
no offset is stored. -/
def emptyWorld : World (List PrintData) :=
  { ext := [], trace := [], pending := [], lastReadOffsets := fun _ => none }

/-! ## Specification vocabulary: the pending queue -/

/-- The drain retires the listed entry when it comes to it in world `w`: the entry is a
regular file whose name ends in .json, and either it does not decode as an event or the
delivery of its event, attempted in `w`, returns success. -/
def retires (J : Json) (E : Env σ) (cfg : Config) (w : World σ) (file : DirEntry) : Bool :=
  !file.isDir && HasSuffix file.name ".json" &&
    match J.unmarshalPrintData file.content with
    | none => true
    | some printData => (tryProcessImpression J E cfg printData w).1

/-- A second event, by another user. -/
def eventOther : PrintData := { eventScenario with Usuario := "bob" }

/-- A pending directory with a corrupt record, a good record and a file that is no
record. -/
def dirMixed : List DirEntry :=
  [⟨"1.json", false, "\x7bbroken"⟩, ⟨"2.json", false, "scenario"⟩, ⟨"notes.txt", false, "x"⟩]

/-- The trace shows the event delivered to the collector: a verify request for it was
answered "exists", or a send request for it was answered with success. -/
def Delivered (J : Json) (cfg : Config) (trace : List IOEvent) (d : PrintData) : Prop :=
  ∃ r, (IOEvent.post (verifyURL cfg) d r ∈ trace ∧ verifyResponse J r = .ok true) ∨
    (IOEvent.post (sendURL cfg) d r ∈ trace ∧ sendResponse r = .ok ())

/-- The event is present as a record of the pending queue: a regular .json file of the
pending directory decodes to it. -/
def Queued (J : Json) (pending : List DirEntry) (d : PrintData) : Prop :=
  ∃ f ∈ pending, f.isDir = false ∧ HasSuffix f.name ".json" = true ∧
    J.unmarshalPrintData f.content = some d

/-- The names of the files written so far, in order. -/
def writtenNames (trace : List IOEvent) : List String :=
  trace.filterMap fun x =>
    match x with
    | .post _ _ _ => none
    | .write name _ _ => some name

/-- A world of the list collector in which today's log is open with some content. -/
def logCollector (sendStatus : Nat) (clock : Int) : Env (List PrintData) :=
  { listCollector sendStatus clock with openLog := fun _ s => (.opened [104, 10, 114, 10], s) }

/-- A reader for concrete runs: whatever the bytes, a header row and the scenario row. -/
def fileLibToy : FileLib :=
  { join := fun dir file => dir ++ "\\" ++ file
    csvReadAll := fun bytes =>
      if bytes.isEmpty then [] else [.record ["Time"], .record rowScenario] }

/-- What the no-loss property assumes of a trace, `names0` being the names in the
pending directory at the start: every write succeeded, the names written are distinct
from each other and from `names0`, and the events handed to delivery are read back
from their JSON form. -/
def GoodTrace (J : Json) (cfg : Config) (names0 : List String) (T : List IOEvent) : Prop :=
  (∀ name data ok, IOEvent.write name data ok ∈ T → ok = true) ∧
  (names0 ++ writtenNames T).Nodup ∧
  (∀ d ∈ handedEvents cfg T, J.unmarshalPrintData (J.marshalIndent d) = some d)

/-- The no-loss invariant on a trace and a pending directory: every event handed to
delivery is delivered or queued; with it, that the names in the directory are distinct
and are among `names0` and the names written. -/
def NoLoss (J : Json) (cfg : Config) (names0 : List String) (T : List IOEvent)
    (P : List DirEntry) : Prop :=
  (∀ d ∈ handedEvents cfg T, Delivered J cfg T d ∨ Queued J P d) ∧
  (∀ f ∈ P, f.name ∈ names0 ∨ f.name ∈ writtenNames T) ∧
  (P.map DirEntry.name).Nodup

/-! ## Specification vocabulary: trimmed strings -/

/-- The string does not begin with white space. -/
def noLeadingSpace (s : String) : Bool :=
  match s.data.head? with
  | some c => !isSpace c
  | none => true

/-- The string does not end with white space. -/
def noTrailingSpace (s : String) : Bool :=
  match s.data.getLast? with
  | some c => !isSpace c
  | none => true

/-- A configuration whose sector is written with surrounding blanks. -/
def cfgPadded : Config := { cfgScenario with Setor := " Finance " }

/-- A row whose document name has a blank right after its last dot. -/
def rowDotBlank : List String :=
  csvFields "2024-01-05 09:00:00,alice,3,2,HP1,report. pdf,PC1,A4,EN,0,0,0,GRAYSCALE,120KB"

/-! ## Service loop -/

/-- What the select of the service loop receives: a tick of the ticker or a control
request (stop, shutdown, interrogate, anything else). -/
inductive Signal where
  | tick
  | stop
  | shutdown
  | interrogate
  | other
deriving DecidableEq, Repr

/-- The startup cycle of Execute (main.go 115-125): the pending queue, then the log. -/
def startupCycle (J : Json) (F : FileLib) (E : Env σ) (cfg : Config) (w : World σ) :
    World σ :=
  (processPapercutLogs J F E cfg (processPendingImpressions J E cfg w)).2

/-- The work of one tick of the ticker (main.go 140-149): the log, then the pending
queue. -/
def tickCycle (J : Json) (F : FileLib) (E : Env σ) (cfg : Config) (w : World σ) :
    World σ :=
  processPendingImpressions J E cfg (processPapercutLogs J F E cfg w).2

/-- The loop of Execute (main.go 138-167) over the signals it receives, in order; it
returns at a stop or shutdown request. -/
def serviceLoop (J : Json) (F : FileLib) (E : Env σ) (cfg : Config) :
    List Signal → World σ → World σ
  | [], w => w
  | .tick :: rest, w => serviceLoop J F E cfg rest (tickCycle J F E cfg w)
  | .stop :: _, w => w
  | .shutdown :: _, w => w
  | .interrogate :: rest, w => serviceLoop J F E cfg rest w
  | .other :: rest, w => serviceLoop J F E cfg rest w

/-- Execute (main.go 86-167) from the point where the log file, the configuration and
the pending directory are set up: the startup cycle, then the loop. -/
def Execute (J : Json) (F : FileLib) (E : Env σ) (cfg : Config) (signals : List Signal)
    (w : World σ) : World σ :=
  serviceLoop J F E cfg signals (startupCycle J F E cfg w)

/-- The phases that the loop runs for a sequence of signals: a tailing pass then a drain
for every tick received before the first stop or shutdown request. -/
def loopPhases : List Signal → List Op
  | [] => []
  | .tick :: rest => .tail :: .drain :: loopPhases rest
  | .stop :: _ => []
  | .shutdown :: _ => []
  | .interrogate :: rest => loopPhases rest
  | .other :: rest => loopPhases rest

/-- A tick as the specification words it: "draining runs first, then tailing". -/
def tickCycleAsSpecified (J : Json) (F : FileLib) (E : Env σ) (cfg : Config)
    (w : World σ) : World σ :=
  runOps J F E cfg [.drain, .tail] w

/-! ## Specification vocabulary: offsets -/

/-- The path of today's log as the pass that starts in world `w` computes it. -/
def todayPath (F : FileLib) (E : Env σ) (cfg : Config) (w : World σ) : String :=
  getPapercutLogPath F cfg.PapercutLogDir (E.today w.ext).1

/-- What opening today's log gives the pass that starts in world `w`. -/
def todayLog (F : FileLib) (E : Env σ) (cfg : Config) (w : World σ) : OpenResult :=
  (E.openLog (todayPath F E cfg w) (E.today w.ext).2).1

/-- The offset stored for a path, 0 when none is. -/
def storedOffset (w : World σ) (path : String) : Nat := (w.lastReadOffsets path).getD 0

/-- The world in which the row loop of the pass from `w` starts: only the outside world
has moved, by the reading of the date and the opening of the file. -/
def afterOpen (F : FileLib) (E : Env σ) (cfg : Config) (w : World σ) : World σ :=
  { w with ext := (E.openLog (todayPath F E cfg w) (E.today w.ext).2).2 }

/-- The four bytes of the log of `logCollector`. -/
def logBytes : List UInt8 := [104, 10, 114, 10]

/-! ## Specification vocabulary: statuses, the fixed timestamp form, stale offsets -/

/-- An HTTP success status: a status of the 2xx class. -/
def isSuccessStatus (code : Nat) : Bool := 200 ≤ code && code ≤ 299

/-- A string against a template in which `d` stands for one decimal digit and every
other character for itself. -/
def matchTemplate : List Char → List Char → Bool
  | [], [] => true
  | p :: ps, c :: cs => (if p = 'd' then isDigit c else c = p) && matchTemplate ps cs
  | _, _ => false

/-- The string is written in the fixed form YYYY-MM-DD HH:MM:SS. -/
def matchesFixedPattern (s : String) : Bool :=
  matchTemplate "dddd-dd-dd dd:dd:dd".data s.data

/-- A row whose field 0 is in the fixed form but is no date and no time of day. -/
def rowInvalid : List String :=
  csvFields "2024-13-45 99:99:99,alice,3,2,HP1,report.pdf,PC1,A4,EN,0,0,0,GRAYSCALE,120KB"

/-- A reader for concrete runs: whatever the bytes, a header row, the row `rowInvalid`
and the row `rowLoose`. -/
def fileLibLoose : FileLib :=
  { join := fun dir file => dir ++ "\\" ++ file
    csvReadAll := fun bytes =>
      if bytes.isEmpty then [] else [.record ["Time"], .record rowInvalid, .record rowLoose] }

/-- A world of the list collector whose verify and ingest endpoints both answer every
request with the given result. -/
def answering (r : HttpResult) : Env (List PrintData) :=
  { listCollector 201 0 with post := fun _ _ s => (r, s) }

/-- The list collector with today's log open at ten bytes. -/
def longLog : Env (List PrintData) :=
  { listCollector 201 5 with
    openLog := fun _ s => (.opened [104, 10, 114, 10, 114, 10, 114, 10, 114, 10], s) }

/-- The world after a pass over the ten-byte log: what a later pass starts from when the
log has meanwhile been replaced by a shorter file. -/
def truncatedWorld : World (List PrintData) :=
  (processPapercutLogs jsonToy fileLibToy longLog cfgScenario emptyWorld).2

/-! # Theorems -/

/-! ## Delivery client -/

lemma verifyURL_ne_sendURL (cfg : Config) : verifyURL cfg ≠ sendURL cfg := by
  intro h
  have h2 := congrArg String.data h
  simp only [verifyURL, sendURL, String.data_append, List.append_cancel_left_eq] at h2
  exact absurd h2 (by decide)

/-- C5 (amended): verifyImpressionExists returns an error exactly when the exchange
failed below HTTP (the POST, or reading the body) or the status is not 200
(http.StatusOK; every other status, the other success statuses too, is an error); with
status 200 and a readable body it reports "exists" exactly when the body decodes with a
status field equal to the string "true", and "does not exist" without error for every
other status value and every body that does not decode. -/
theorem verifyImpressionExists_spec (J : Json) (E : Env σ) (url : String)
    (data : PrintData) (w : World σ) :
    ((verifyImpressionExists J E url data w).1.isOk = false ↔
      ((E.post url data w.ext).1.transportFailed = true ∨
        (E.post url data w.ext).1.statusCode? ≠ some StatusOK)) ∧
    ((verifyImpressionExists J E url data w).1 = .ok true ↔
      ((E.post url data w.ext).1.statusCode? = some StatusOK ∧
        (E.post url data w.ext).1.body?.bind J.unmarshalStatus = some "true")) ∧
    ((verifyImpressionExists J E url data w).1 = .ok false ↔
      ((E.post url data w.ext).1.statusCode? = some StatusOK ∧
        (E.post url data w.ext).1.transportFailed = false ∧
        (E.post url data w.ext).1.body?.bind J.unmarshalStatus ≠ some "true")) := by
  simp only [verifyImpressionExists, httpPost]
  cases hr : (E.post url data w.ext).1 with
  | transportError =>
    simp [verifyResponse, HttpResult.transportFailed, HttpResult.statusCode?,
      HttpResult.body?, Except.isOk, Except.toBool]
  | response code body =>
    by_cases hc : code = StatusOK
    · cases body with
      | none =>
        simp [verifyResponse, HttpResult.transportFailed, HttpResult.statusCode?,
          HttpResult.body?, Except.isOk, Except.toBool, hc]
      | some b =>
        cases hb : J.unmarshalStatus b with
        | none =>
          simp [verifyResponse, HttpResult.transportFailed, HttpResult.statusCode?,
            HttpResult.body?, Except.isOk, Except.toBool, hc, hb]
        | some st =>
          by_cases hs : st = "true" <;>
          simp [verifyResponse, HttpResult.transportFailed, HttpResult.statusCode?,
            HttpResult.body?, Except.isOk, Except.toBool, hc, hb, hs]
    · cases body <;>
      simp [verifyResponse, HttpResult.transportFailed, HttpResult.statusCode?,
        HttpResult.body?, Except.isOk, Except.toBool, hc]

/-- C5 as stated fails: 201 and 204 are success statuses, and the send path takes 201
for a success, yet a verify answer with status 201 or 204 whose body says "true" makes
verifyImpressionExists return an error. -/
theorem verifyImpressionExists_spec_counterexample :
    isSuccessStatus 201 = true ∧ isSuccessStatus 204 = true ∧
    (sendResponse (.response 201 (some bodyTrue))).isOk = true ∧
    jsonToy.unmarshalStatus bodyTrue = some "true" ∧
    (HttpResult.response 201 (some bodyTrue)).transportFailed = false ∧
    (verifyImpressionExists jsonToy (answering (.response 201 (some bodyTrue)))
      (verifyURL cfgScenario) eventScenario emptyWorld).1.isOk = false ∧
    (verifyImpressionExists jsonToy (answering (.response 204 (some bodyTrue)))
      (verifyURL cfgScenario) eventScenario emptyWorld).1.isOk = false := by
  decide

/-- C1: tryProcessImpression follows the verify-then-send table.  When verify ends in
an error it returns false, and when verify reports that the event exists it returns
true, in both cases having issued the verify request only (no POST to the ingest URL);
otherwise it issues the verify request and then exactly one POST to the ingest URL, and
returns true exactly when that POST was answered with status 200 or 201. -/
theorem tryProcessImpression_table (J : Json) (E : Env σ) (cfg : Config)
    (data : PrintData) (w : World σ) :
    match (verifyImpressionExists J E (verifyURL cfg) data w).1 with
    | .error _ =>
      (tryProcessImpression J E cfg data w).1 = false ∧
      (tryProcessImpression J E cfg data w).2.trace =
        w.trace ++ [.post (verifyURL cfg) data (E.post (verifyURL cfg) data w.ext).1] ∧
      (((tryProcessImpression J E cfg data w).2.trace.drop w.trace.length).countP
        (IOEvent.isPostTo (sendURL cfg))) = 0
    | .ok true =>
      (tryProcessImpression J E cfg data w).1 = true ∧
      (tryProcessImpression J E cfg data w).2.trace =
        w.trace ++ [.post (verifyURL cfg) data (E.post (verifyURL cfg) data w.ext).1] ∧
      (((tryProcessImpression J E cfg data w).2.trace.drop w.trace.length).countP
        (IOEvent.isPostTo (sendURL cfg))) = 0
    | .ok false =>
      ((tryProcessImpression J E cfg data w).1 = true ↔
        ((E.post (sendURL cfg) data (E.post (verifyURL cfg) data w.ext).2).1.statusCode?
            = some 200 ∨
         (E.post (sendURL cfg) data (E.post (verifyURL cfg) data w.ext).2).1.statusCode?
            = some 201)) ∧
      (tryProcessImpression J E cfg data w).2.trace =
        w.trace ++ [.post (verifyURL cfg) data (E.post (verifyURL cfg) data w.ext).1,
          .post (sendURL cfg) data
            (E.post (sendURL cfg) data (E.post (verifyURL cfg) data w.ext).2).1] ∧
      (((tryProcessImpression J E cfg data w).2.trace.drop w.trace.length).countP
        (IOEvent.isPostTo (sendURL cfg))) = 1 := by
  have hne := verifyURL_ne_sendURL cfg
  simp only [tryProcessImpression, verifyImpressionExists, sendDataToAPI, httpPost]
  cases hv : verifyResponse J (E.post (verifyURL cfg) data w.ext).1 with
  | error e => simp [IOEvent.isPostTo, hne]
  | ok b =>
    cases b with
    | true => simp [IOEvent.isPostTo, hne]
    | false =>
      cases hs : (E.post (sendURL cfg) data (E.post (verifyURL cfg) data w.ext).2).1 with
      | transportError =>
        simp [sendResponse, HttpResult.statusCode?, IOEvent.isPostTo, hne]
      | response code body =>
        by_cases h1 : code = 200
        · simp [sendResponse, HttpResult.statusCode?, IOEvent.isPostTo, hne, h1, StatusOK,
            StatusCreated]
        · by_cases h2 : code = 201
          · simp [sendResponse, HttpResult.statusCode?, IOEvent.isPostTo, hne, h2,
              StatusOK, StatusCreated]
          · simp [sendResponse, HttpResult.statusCode?, IOEvent.isPostTo, hne, h1, h2,
              StatusOK, StatusCreated]

/-! ## Record parsing -/

lemma Atoi_range (s : String) (v : Int) (h : Atoi s = some v) :
    -(2 ^ 63 : Int) ≤ v ∧ v < 2 ^ 63 := by
  simp only [Atoi, intSize] at h
  rw [Option.ite_none_left_eq_some, Option.ite_none_left_eq_some] at h
  obtain ⟨-, h2, h3⟩ := h
  simp only [Option.some.injEq] at h3
  rw [h3] at h2
  simp only [Bool.or_eq_true, decide_eq_true_eq, not_or, not_lt, not_le] at h2
  norm_num at h2 ⊢
  exact h2

lemma Atoi_neg_head (s : String) (v : Int) (h : Atoi s = some v) (hv : v < 0) :
    s.data.head? = some '-' := by
  unfold Atoi at h
  split at h
  · simp_all
  · simp only [Bool.false_eq_true, if_false] at h
    split_ifs at h
    simp only [Option.some.injEq] at h
    omega
  · simp only [Bool.false_eq_true, if_false] at h
    split_ifs at h
    simp only [Option.some.injEq] at h
    omega

lemma extScan_dot (xs rest acc : List Char)
    (h : ∀ c ∈ xs, c ≠ '.' ∧ IsPathSeparator c = false) :
    extScan (xs ++ '.' :: rest) acc = '.' :: (xs.reverse ++ acc) := by
  induction xs generalizing acc with
  | nil => simp [extScan, IsPathSeparator]
  | cons x xs ih =>
    have hx := h x (List.mem_cons_self _ _)
    have := ih (x :: acc) (fun c hc => h c (List.mem_cons_of_mem _ hc))
    simp [extScan, hx.1, hx.2, this]

lemma extScan_sep (xs rest acc : List Char) (s : Char) (hs : IsPathSeparator s = true)
    (h : ∀ c ∈ xs, c ≠ '.') :
    extScan (xs ++ s :: rest) acc = [] := by
  induction xs generalizing acc with
  | nil => simp [extScan, hs]
  | cons x xs ih =>
    have hx := h x (List.mem_cons_self _ _)
    have := ih (x :: acc) (fun c hc => h c (List.mem_cons_of_mem _ hc))
    by_cases hp : IsPathSeparator x = true
    · simp [extScan, hp]
    · simp [extScan, hx, hp, this]

lemma extScan_nodot (xs acc : List Char) (h : ∀ c ∈ xs, c ≠ '.') :
    extScan xs acc = [] := by
  induction xs generalizing acc with
  | nil => simp [extScan]
  | cons x xs ih =>
    have hx := h x (List.mem_cons_self _ _)
    have := ih (x :: acc) (fun c hc => h c (List.mem_cons_of_mem _ hc))
    by_cases hp : IsPathSeparator x = true
    · simp [extScan, hp]
    · simp [extScan, hx, hp, this]

lemma extScan_shape (xs acc : List Char) :
    extScan xs acc = [] ∨
      ∃ ys, extScan xs acc = '.' :: (ys ++ acc) ∧
        ∀ c ∈ ys, c ≠ '.' ∧ IsPathSeparator c = false := by
  induction xs generalizing acc with
  | nil => simp [extScan]
  | cons x xs ih =>
    by_cases hp : IsPathSeparator x = true
    · simp [extScan, hp]
    · by_cases hd : x = '.'
      · right
        refine ⟨[], ?_, by simp⟩
        subst hd
        simp [extScan, IsPathSeparator]
      · rcases ih (x :: acc) with h | ⟨ys, h1, h2⟩
        · left; simp [extScan, hp, hd, h]
        · right
          refine ⟨ys ++ [x], ?_, ?_⟩
          · simp [extScan, hp, hd, h1]
          · intro c hc
            rcases List.mem_append.1 hc with hc | hc
            · exact h2 c hc
            · simp at hc; subst hc; exact ⟨hd, by simpa using hp⟩

lemma TrimPrefix_dot_cons (r : List Char) : TrimPrefix ⟨'.' :: r⟩ "." = ⟨r⟩ := by
  simp [TrimPrefix]

lemma digitVal_lt (c : Char) (h : isDigit c = true) : digitVal c < 10 := by
  simp [isDigit, digitVal] at *; omega

lemma digitChar_digitVal (c : Char) (h : isDigit c = true) (n : Nat)
    (hn : n % 10 = digitVal c) : digitChar n = c := by
  have h2 : 48 + n % 10 = c.toNat := by
    simp [isDigit, digitVal] at *; omega
  simp [digitChar, h2]

lemma pad2_digits (a b : Char) (ha : isDigit a = true) (hb : isDigit b = true) :
    pad2 (digitVal a * 10 + digitVal b) = [a, b] := by
  have h1 := digitVal_lt a ha
  have h2 := digitVal_lt b hb
  simp only [pad2]
  rw [digitChar_digitVal a ha _ (by omega), digitChar_digitVal b hb _ (by omega)]

lemma pad4_digits (a b c d : Char) (ha : isDigit a = true) (hb : isDigit b = true)
    (hc : isDigit c = true) (hd : isDigit d = true) :
    pad4 (digitsVal [a, b, c, d]) = [a, b, c, d] := by
  have h1 := digitVal_lt a ha
  have h2 := digitVal_lt b hb
  have h3 := digitVal_lt c hc
  have h4 := digitVal_lt d hd
  simp only [pad4, digitsVal, List.foldl]
  rw [digitChar_digitVal a ha _ (by omega), digitChar_digitVal b hb _ (by omega),
    digitChar_digitVal c hc _ (by omega), digitChar_digitVal d hd _ (by omega)]

lemma getnum_fixed (a b : Char) (rest : List Char) (n : Nat) (r : List Char)
    (h : getnum (a :: b :: rest) true = some (n, r)) :
    isDigit a = true ∧ isDigit b = true ∧ n = digitVal a * 10 + digitVal b ∧ r = rest := by
  simp only [getnum] at h
  by_cases ha : isDigit a = true <;> by_cases hb : isDigit b = true <;> simp_all

lemma getnum_free (a b : Char) (rest : List Char) (n : Nat) (r : List Char)
    (h : getnum (a :: b :: rest) false = some (n, r)) :
    isDigit a = true ∧
      ((isDigit b = true ∧ n = digitVal a * 10 + digitVal b ∧ r = rest) ∨
        (isDigit b = false ∧ r = b :: rest)) := by
  simp only [getnum] at h
  by_cases ha : isDigit a = true <;> by_cases hb : isDigit b = true <;> simp_all

lemma skipChar_self (c : Char) (rest : List Char) : skipChar c (c :: rest) = some rest := by
  simp [skipChar]

lemma timeParse_canonical (y1 y2 y3 y4 m1 m2 d1 d2 h1 h2 n1 n2 s1 s2 : Char) (t : Time)
    (hh : isDigit h1 = true)
    (h : timeParse ⟨[y1, y2, y3, y4, '-', m1, m2, '-', d1, d2, ' ', h1, h2, ':', n1, n2,
      ':', s1, s2]⟩ = some t) :
    formatDate t = ⟨[y1, y2, y3, y4, '-', m1, m2, '-', d1, d2]⟩ ∧
    formatClock t = ⟨[h1, h2, ':', n1, n2, ':', s1, s2]⟩ := by
  simp only [timeParse] at h
  simp at h
  obtain ⟨⟨hy1, hy2, hy3, hy4⟩, h⟩ := h
  simp only [skipChar_self, Option.some_bind] at h
  cases hm : getnum [m1, m2, '-', d1, d2, ' ', h1, h2, ':', n1, n2, ':', s1, s2] true with
  | none => simp [hm] at h
  | some p =>
    obtain ⟨mo, r⟩ := p
    obtain ⟨hm1, hm2, rfl, rfl⟩ := getnum_fixed _ _ _ _ _ hm
    simp only [hm, Option.some_bind] at h
    rw [Option.ite_none_left_eq_some] at h
    obtain ⟨-, h⟩ := h
    simp only [skipChar_self, Option.some_bind] at h
    cases hd : getnum [d1, d2, ' ', h1, h2, ':', n1, n2, ':', s1, s2] true with
    | none => simp [hd] at h
    | some p =>
      obtain ⟨da, r⟩ := p
      obtain ⟨hd1, hd2, rfl, rfl⟩ := getnum_fixed _ _ _ _ _ hd
      simp only [hd, Option.some_bind] at h
      have hsp : h1 ≠ ' ' := by
        intro he; rw [he] at hh; exact absurd hh (by decide)
      have hskip : skipSpace [' ', h1, h2, ':', n1, n2, ':', s1, s2] =
          some [h1, h2, ':', n1, n2, ':', s1, s2] := by
        simp [skipSpace, List.dropWhile, hsp]
      simp only [hskip, Option.some_bind] at h
      cases hho : getnum [h1, h2, ':', n1, n2, ':', s1, s2] false with
      | none => simp [hho] at h
      | some p =>
        obtain ⟨ho, r⟩ := p
        obtain ⟨-, hcase⟩ := getnum_free _ _ _ _ _ hho
        simp only [hho, Option.some_bind] at h
        rw [Option.ite_none_left_eq_some] at h
        obtain ⟨-, h⟩ := h
        rcases hcase with ⟨hh2, rfl, rfl⟩ | ⟨hh2, rfl⟩
        · simp only [skipChar_self, Option.some_bind] at h
          cases hmi : getnum [n1, n2, ':', s1, s2] true with
          | none => simp [hmi] at h
          | some p =>
            obtain ⟨mi, r⟩ := p
            obtain ⟨hn1, hn2, rfl, rfl⟩ := getnum_fixed _ _ _ _ _ hmi
            simp only [hmi, Option.some_bind] at h
            rw [Option.ite_none_left_eq_some] at h
            obtain ⟨-, h⟩ := h
            simp only [skipChar_self, Option.some_bind] at h
            cases hse : getnum [s1, s2] true with
            | none => simp [hse] at h
            | some p =>
              obtain ⟨se, r⟩ := p
              obtain ⟨hs1, hs2, rfl, rfl⟩ := getnum_fixed _ _ _ _ _ hse
              simp only [hse, Option.some_bind] at h
              rw [Option.ite_none_left_eq_some] at h
              obtain ⟨-, h⟩ := h
              rw [Option.ite_none_right_eq_some] at h
              obtain ⟨-, h⟩ := h
              rw [Option.ite_none_left_eq_some] at h
              obtain ⟨-, h⟩ := h
              simp only [Option.some.injEq] at h
              subst h
              simp only [formatDate, formatClock]
              rw [pad4_digits _ _ _ _ hy1 hy2 hy3 hy4, pad2_digits _ _ hm1 hm2,
                pad2_digits _ _ hd1 hd2, pad2_digits _ _ hh hh2, pad2_digits _ _ hn1 hn2,
                pad2_digits _ _ hs1 hs2]
              simp
        · cases hsk : skipChar ':' [h2, ':', n1, n2, ':', s1, s2] with
          | none => simp [hsk] at h
          | some r =>
            simp only [skipChar] at hsk
            split_ifs at hsk with hcol
            subst hcol
            simp only [Option.some.injEq] at hsk
            subst hsk
            simp [skipChar_self, getnum, isDigit] at h

lemma getnum_digits (a b : Char) (rest : List Char) (fixed : Bool)
    (ha : isDigit a = true) (hb : isDigit b = true) :
    getnum (a :: b :: rest) fixed = some (digitVal a * 10 + digitVal b, rest) := by
  simp [getnum, ha, hb]

lemma skipSpace_digit (h1 : Char) (rest : List Char) (hh : isDigit h1 = true) :
    skipSpace (' ' :: h1 :: rest) = some (h1 :: rest) := by
  have hsp : h1 ≠ ' ' := by
    intro he; rw [he] at hh; exact absurd hh (by decide)
  simp [skipSpace, List.dropWhile, hsp]

lemma timeParse_fixed (y1 y2 y3 y4 m1 m2 d1 d2 h1 h2 n1 n2 s1 s2 : Char)
    (hy1 : isDigit y1 = true) (hy2 : isDigit y2 = true) (hy3 : isDigit y3 = true)
    (hy4 : isDigit y4 = true) (hm1 : isDigit m1 = true) (hm2 : isDigit m2 = true)
    (hd1 : isDigit d1 = true) (hd2 : isDigit d2 = true) (hh1 : isDigit h1 = true)
    (hh2 : isDigit h2 = true) (hn1 : isDigit n1 = true) (hn2 : isDigit n2 = true)
    (hs1 : isDigit s1 = true) (hs2 : isDigit s2 = true) :
    (timeParse ⟨[y1, y2, y3, y4, '-', m1, m2, '-', d1, d2, ' ', h1, h2, ':', n1, n2,
      ':', s1, s2]⟩).isSome = true ↔
    (1 ≤ digitVal m1 * 10 + digitVal m2 ∧ digitVal m1 * 10 + digitVal m2 ≤ 12 ∧
      1 ≤ digitVal d1 * 10 + digitVal d2 ∧
      digitVal d1 * 10 + digitVal d2
        ≤ daysIn (digitVal m1 * 10 + digitVal m2) (digitsVal [y1, y2, y3, y4]) ∧
      digitVal h1 * 10 + digitVal h2 < 24 ∧ digitVal n1 * 10 + digitVal n2 < 60 ∧
      digitVal s1 * 10 + digitVal s2 < 60) := by
  simp only [timeParse]
  simp [hy1, hy2, hy3, hy4]
  simp only [skipChar_self, Option.some_bind, getnum_digits _ _ _ _ hm1 hm2,
    getnum_digits _ _ _ _ hd1 hd2, skipSpace_digit _ _ hh1, getnum_digits _ _ _ _ hh2 hh2,
    getnum_digits _ _ _ _ hh1 hh2, getnum_digits _ _ _ _ hn1 hn2,
    getnum_digits _ _ _ _ hs1 hs2, skipFraction]
  split_ifs <;> simp <;> omega

lemma matchTemplate_cons (p : Char) (ps l : List Char)
    (h : matchTemplate (p :: ps) l = true) :
    ∃ c cs, l = c :: cs ∧ (if p = 'd' then isDigit c = true else c = p) ∧
      matchTemplate ps cs = true := by
  cases l with
  | nil => simp [matchTemplate] at h
  | cons c cs =>
    refine ⟨c, cs, rfl, ?_⟩
    simp only [matchTemplate, Bool.and_eq_true] at h
    refine ⟨?_, h.2⟩
    have h1 := h.1
    split_ifs at h1 ⊢ with hp
    · exact h1
    · simpa using h1

lemma matchTemplate_nil (l : List Char) (h : matchTemplate [] l = true) : l = [] := by
  cases l with
  | nil => rfl
  | cons c cs => simp [matchTemplate] at h

lemma matchesFixedPattern_shape (s : String) (h : matchesFixedPattern s = true) :
    ∃ y1 y2 y3 y4 m1 m2 d1 d2 h1 h2 n1 n2 s1 s2 : Char,
      s = ⟨[y1, y2, y3, y4, '-', m1, m2, '-', d1, d2, ' ', h1, h2, ':', n1, n2, ':', s1,
        s2]⟩ ∧
      isDigit y1 = true ∧ isDigit y2 = true ∧ isDigit y3 = true ∧ isDigit y4 = true ∧
      isDigit m1 = true ∧ isDigit m2 = true ∧ isDigit d1 = true ∧ isDigit d2 = true ∧
      isDigit h1 = true ∧ isDigit h2 = true ∧ isDigit n1 = true ∧ isDigit n2 = true ∧
      isDigit s1 = true ∧ isDigit s2 = true := by
  have h0 : matchTemplate ['d', 'd', 'd', 'd', '-', 'd', 'd', '-', 'd', 'd', ' ', 'd', 'd',
      ':', 'd', 'd', ':', 'd', 'd'] s.data = true := h
  obtain ⟨y1, l, e1, c1, h0⟩ := matchTemplate_cons _ _ _ h0
  obtain ⟨y2, l, e2, c2, h0⟩ := matchTemplate_cons _ _ _ h0
  obtain ⟨y3, l, e3, c3, h0⟩ := matchTemplate_cons _ _ _ h0
  obtain ⟨y4, l, e4, c4, h0⟩ := matchTemplate_cons _ _ _ h0
  obtain ⟨q1, l, e5, c5, h0⟩ := matchTemplate_cons _ _ _ h0
  obtain ⟨m1, l, e6, c6, h0⟩ := matchTemplate_cons _ _ _ h0
  obtain ⟨m2, l, e7, c7, h0⟩ := matchTemplate_cons _ _ _ h0
  obtain ⟨q2, l, e8, c8, h0⟩ := matchTemplate_cons _ _ _ h0
  obtain ⟨d1, l, e9, c9, h0⟩ := matchTemplate_cons _ _ _ h0
  obtain ⟨d2, l, e10, c10, h0⟩ := matchTemplate_cons _ _ _ h0
  obtain ⟨q3, l, e11, c11, h0⟩ := matchTemplate_cons _ _ _ h0
  obtain ⟨h1, l, e12, c12, h0⟩ := matchTemplate_cons _ _ _ h0
  obtain ⟨h2, l, e13, c13, h0⟩ := matchTemplate_cons _ _ _ h0
  obtain ⟨q4, l, e14, c14, h0⟩ := matchTemplate_cons _ _ _ h0
  obtain ⟨n1, l, e15, c15, h0⟩ := matchTemplate_cons _ _ _ h0
  obtain ⟨n2, l, e16, c16, h0⟩ := matchTemplate_cons _ _ _ h0
  obtain ⟨q5, l, e17, c17, h0⟩ := matchTemplate_cons _ _ _ h0
  obtain ⟨s1, l, e18, c18, h0⟩ := matchTemplate_cons _ _ _ h0
  obtain ⟨s2, l, e19, c19, h0⟩ := matchTemplate_cons _ _ _ h0
  have e20 := matchTemplate_nil _ h0
  subst e20 e19 e18 e17 e16 e15 e14 e13 e12 e11 e10 e9 e8 e7 e6 e5 e4 e3 e2
  simp only [if_true] at c1 c2 c3 c4 c6 c7 c9 c10 c12 c13 c15 c16 c18 c19
  have k5 : q1 = '-' := by simpa using c5
  have k8 : q2 = '-' := by simpa using c8
  have k11 : q3 = ' ' := by simpa using c11
  have k14 : q4 = ':' := by simpa using c14
  have k17 : q5 = ':' := by simpa using c17
  subst k5 k8 k11 k14 k17
  refine ⟨y1, y2, y3, y4, m1, m2, d1, d2, h1, h2, n1, n2, s1, s2, ?_, c1, c2, c3, c4, c6,
    c7, c9, c10, c12, c13, c15, c16, c18, c19⟩
  cases s
  simp only at e1
  rw [e1]

lemma acceptRecord_some (record : List String) (t : Time)
    (h : acceptRecord record = some t) :
    14 ≤ record.length ∧ timeParse (TrimSpace (field record 0)) = some t := by
  unfold acceptRecord at h
  split_ifs at h with hl
  exact ⟨by omega, h⟩

/-- C8 (amended): for every accepted row, with `t` the time parsed from field 0 after
trimming, the event has the date and the time of `t` in the zero padded forms
YYYY-MM-DD and HH:MM:SS, which are the date part and the time part of field 0 whenever
the trimmed field is written as ten characters, one space, and eight characters that
begin with a digit; user, printer, document name, client, paper size, colour and size
are fields 1, 4, 5, 6, 7, 12 and 13 with the surrounding white space trimmed; pages and
copies are the integers in the trimmed fields 2 and 3, or 0 and 1 when they do not
parse; the type is the extension of the document name without its dot; sector and
company id are those of the configuration whatever the row; and the scenario row with
sector "Finance" and company 7 gives date 2024-01-05, time 09:00:00, pages 3, copies 2,
type pdf. -/
theorem mkPrintData_fields (cfg : Config) (record : List String) (t : Time)
    (ip mac : String) (h : acceptRecord record = some t) :
    timeParse (TrimSpace (field record 0)) = some t ∧
    (mkPrintData cfg record t ip mac).Data = formatDate t ∧
    (mkPrintData cfg record t ip mac).Hora = formatClock t ∧
    (∀ y1 y2 y3 y4 m1 m2 d1 d2 h1 h2 n1 n2 s1 s2 : Char, isDigit h1 = true →
      TrimSpace (field record 0) = ⟨[y1, y2, y3, y4, '-', m1, m2, '-', d1, d2, ' ', h1,
        h2, ':', n1, n2, ':', s1, s2]⟩ →
      (mkPrintData cfg record t ip mac).Data =
          ⟨[y1, y2, y3, y4, '-', m1, m2, '-', d1, d2]⟩ ∧
        (mkPrintData cfg record t ip mac).Hora = ⟨[h1, h2, ':', n1, n2, ':', s1, s2]⟩) ∧
    (mkPrintData cfg record t ip mac).Usuario = TrimSpace (field record 1) ∧
    (mkPrintData cfg record t ip mac).Impressora = TrimSpace (field record 4) ∧
    (mkPrintData cfg record t ip mac).NomeArquivo = TrimSpace (field record 5) ∧
    (mkPrintData cfg record t ip mac).NomePC = TrimSpace (field record 6) ∧
    (mkPrintData cfg record t ip mac).TipoPage = TrimSpace (field record 7) ∧
    (mkPrintData cfg record t ip mac).Cor = TrimSpace (field record 12) ∧
    (mkPrintData cfg record t ip mac).Tamanho = TrimSpace (field record 13) ∧
    (mkPrintData cfg record t ip mac).Paginas =
      (Atoi (TrimSpace (field record 2))).getD 0 ∧
    (mkPrintData cfg record t ip mac).Copias =
      (Atoi (TrimSpace (field record 3))).getD 1 ∧
    (mkPrintData cfg record t ip mac).Tipo =
      TrimPrefix (Ext (TrimSpace (field record 5))) "." ∧
    (∀ (record2 : List String) (t2 : Time) (ip2 mac2 : String),
      (mkPrintData cfg record2 t2 ip2 mac2).Setor = cfg.Setor ∧
      (mkPrintData cfg record2 t2 ip2 mac2).IDEmpresa = cfg.IDEmpresa) ∧
    (acceptRecord rowScenario = some ⟨2024, 1, 5, 9, 0, 0⟩ ∧
      (mkPrintData cfgScenario rowScenario ⟨2024, 1, 5, 9, 0, 0⟩ ip mac).Data
        = "2024-01-05" ∧
      (mkPrintData cfgScenario rowScenario ⟨2024, 1, 5, 9, 0, 0⟩ ip mac).Hora
        = "09:00:00" ∧
      (mkPrintData cfgScenario rowScenario ⟨2024, 1, 5, 9, 0, 0⟩ ip mac).Paginas = 3 ∧
      (mkPrintData cfgScenario rowScenario ⟨2024, 1, 5, 9, 0, 0⟩ ip mac).Copias = 2 ∧
      (mkPrintData cfgScenario rowScenario ⟨2024, 1, 5, 9, 0, 0⟩ ip mac).Tipo = "pdf" ∧
      (mkPrintData cfgScenario rowScenario ⟨2024, 1, 5, 9, 0, 0⟩ ip mac).Setor
        = "Finance" ∧
      (mkPrintData cfgScenario rowScenario ⟨2024, 1, 5, 9, 0, 0⟩ ip mac).IDEmpresa
        = 7) := by
  have ht := (acceptRecord_some record t h).2
  refine ⟨ht, rfl, rfl, ?_, rfl, rfl, rfl, rfl, rfl, rfl, rfl, rfl, rfl, rfl,
    fun _ _ _ _ => ⟨rfl, rfl⟩, by decide,
    (show (mkPrintData cfgScenario rowScenario ⟨2024, 1, 5, 9, 0, 0⟩ "" "").Data
      = "2024-01-05" from by decide),
    (show (mkPrintData cfgScenario rowScenario ⟨2024, 1, 5, 9, 0, 0⟩ "" "").Hora
      = "09:00:00" from by decide),
    (show (mkPrintData cfgScenario rowScenario ⟨2024, 1, 5, 9, 0, 0⟩ "" "").Paginas
      = 3 from by decide),
    (show (mkPrintData cfgScenario rowScenario ⟨2024, 1, 5, 9, 0, 0⟩ "" "").Copias
      = 2 from by decide),
    (show (mkPrintData cfgScenario rowScenario ⟨2024, 1, 5, 9, 0, 0⟩ "" "").Tipo
      = "pdf" from by decide),
    (show (mkPrintData cfgScenario rowScenario ⟨2024, 1, 5, 9, 0, 0⟩ "" "").Setor
      = "Finance" from by decide),
    (show (mkPrintData cfgScenario rowScenario ⟨2024, 1, 5, 9, 0, 0⟩ "" "").IDEmpresa
      = 7 from by decide)⟩
  intro y1 y2 y3 y4 m1 m2 d1 d2 h1 h2 n1 n2 s1 s2 hh hf
  rw [hf] at ht
  exact timeParse_canonical _ _ _ _ _ _ _ _ _ _ _ _ _ _ t hh ht

/-- C8, witness: the scenario row is accepted and the theorem applies to it. -/
theorem mkPrintData_fields_witness :
    acceptRecord rowScenario = some ⟨2024, 1, 5, 9, 0, 0⟩ ∧
    (mkPrintData cfgScenario rowScenario ⟨2024, 1, 5, 9, 0, 0⟩ "10.0.0.5" "aa:bb").Usuario
      = TrimSpace (field rowScenario 1) :=
  ⟨by decide,
    (mkPrintData_fields cfgScenario rowScenario ⟨2024, 1, 5, 9, 0, 0⟩ "10.0.0.5" "aa:bb"
      (by decide)).2.2.2.2.1⟩

/-- C8 as stated fails: the accepted row `rowLoose` has field 1 " alice " and the time
part "9:00:00.5" in field 0, and its event has user "alice" and time "09:00:00". -/
theorem mkPrintData_fields_counterexample :
    acceptRecord rowLoose = some ⟨2024, 1, 5, 9, 0, 0⟩ ∧
    field rowLoose 0 = "2024-01-05 9:00:00.5" ∧
    (mkPrintData cfgScenario rowLoose ⟨2024, 1, 5, 9, 0, 0⟩ "" "").Hora = "09:00:00" ∧
    field rowLoose 1 = " alice " ∧
    (mkPrintData cfgScenario rowLoose ⟨2024, 1, 5, 9, 0, 0⟩ "" "").Usuario = "alice" ∧
    (mkPrintData cfgScenario rowLoose ⟨2024, 1, 5, 9, 0, 0⟩ "" "").Usuario
      ≠ field rowLoose 1 := by
  decide

/-- C9 (amended): for every accepted row, the page count and the copy count of the
event are integers in the range of int; each is non-negative unless its field, once
trimmed, begins with a minus sign (a negative number is kept as it is), and they are 0
and 1 when the fields do not parse. -/
theorem mkPrintData_counts (cfg : Config) (record : List String) (t : Time)
    (ip mac : String) (_h : acceptRecord record = some t) :
    (0 ≤ (mkPrintData cfg record t ip mac).Paginas ∨
      (TrimSpace (field record 2)).data.head? = some '-') ∧
    (0 ≤ (mkPrintData cfg record t ip mac).Copias ∨
      (TrimSpace (field record 3)).data.head? = some '-') ∧
    (Atoi (TrimSpace (field record 2)) = none →
      (mkPrintData cfg record t ip mac).Paginas = 0) ∧
    (Atoi (TrimSpace (field record 3)) = none →
      (mkPrintData cfg record t ip mac).Copias = 1) ∧
    (-(2 ^ 63 : Int) ≤ (mkPrintData cfg record t ip mac).Paginas ∧
      (mkPrintData cfg record t ip mac).Paginas < 2 ^ 63) ∧
    (-(2 ^ 63 : Int) ≤ (mkPrintData cfg record t ip mac).Copias ∧
      (mkPrintData cfg record t ip mac).Copias < 2 ^ 63) := by
  refine ⟨?_, ?_, ?_, ?_, ?_, ?_⟩
  · by_cases h : 0 ≤ (mkPrintData cfg record t ip mac).Paginas
    · exact Or.inl h
    · right
      simp only [mkPrintData] at h
      cases ha : Atoi (TrimSpace (field record 2)) with
      | none => simp [ha] at h
      | some v =>
        simp [ha] at h
        exact Atoi_neg_head _ v ha h
  · by_cases h : 0 ≤ (mkPrintData cfg record t ip mac).Copias
    · exact Or.inl h
    · right
      simp only [mkPrintData] at h
      cases ha : Atoi (TrimSpace (field record 3)) with
      | none => simp [ha] at h
      | some v =>
        simp [ha] at h
        exact Atoi_neg_head _ v ha h
  · intro ha; simp [mkPrintData, ha]
  · intro ha; simp [mkPrintData, ha]
  · simp only [mkPrintData]
    cases ha : Atoi (TrimSpace (field record 2)) with
    | none => simp
    | some v => simpa using Atoi_range _ v ha
  · simp only [mkPrintData]
    cases ha : Atoi (TrimSpace (field record 3)) with
    | none => simp
    | some v => simpa using Atoi_range _ v ha

/-- C9, witness: the scenario row is accepted and has counts 3 and 2. -/
theorem mkPrintData_counts_witness :
    acceptRecord rowScenario = some ⟨2024, 1, 5, 9, 0, 0⟩ ∧
    (0 ≤ (mkPrintData cfgScenario rowScenario ⟨2024, 1, 5, 9, 0, 0⟩ "" "").Paginas ∨
      (TrimSpace (field rowScenario 2)).data.head? = some '-') :=
  ⟨by decide,
    (mkPrintData_counts cfgScenario rowScenario ⟨2024, 1, 5, 9, 0, 0⟩ "" ""
      (by decide)).1⟩

/-- C9 as stated fails: the accepted row `rowNegative`, with "-3" pages and "-2"
copies, gives an event with pages -3 and copies -2. -/
theorem mkPrintData_counts_counterexample :
    acceptRecord rowNegative = some ⟨2024, 1, 5, 9, 0, 0⟩ ∧
    (mkPrintData cfgScenario rowNegative ⟨2024, 1, 5, 9, 0, 0⟩ "" "").Paginas = -3 ∧
    (mkPrintData cfgScenario rowNegative ⟨2024, 1, 5, 9, 0, 0⟩ "" "").Copias = -2 ∧
    ¬ (0 ≤ (mkPrintData cfgScenario rowNegative ⟨2024, 1, 5, 9, 0, 0⟩ "" "").Paginas) ∧
    ¬ (0 ≤ (mkPrintData cfgScenario rowNegative ⟨2024, 1, 5, 9, 0, 0⟩ "" "").Copias) := by
  decide

/-- C10 (amended): for every accepted row, the type of the event is the file
extension of the trimmed document name, in the letter case in which it is written,
without its leading dot: it holds no dot and no path separator, it is `ext` when the
name is `base.ext` with `ext` free of dots and separators, and it is empty when the
name, or its part after the last path separator, holds no dot. -/
theorem mkPrintData_tipo (cfg : Config) (record : List String) (t : Time)
    (ip mac : String) (_h : acceptRecord record = some t) :
    (mkPrintData cfg record t ip mac).NomeArquivo = TrimSpace (field record 5) ∧
    (mkPrintData cfg record t ip mac).Tipo =
      TrimPrefix (Ext (mkPrintData cfg record t ip mac).NomeArquivo) "." ∧
    (∀ c ∈ (mkPrintData cfg record t ip mac).Tipo.data,
      c ≠ '.' ∧ IsPathSeparator c = false) ∧
    (∀ base ext : List Char,
      (mkPrintData cfg record t ip mac).NomeArquivo.data = base ++ '.' :: ext →
      (∀ c ∈ ext, c ≠ '.' ∧ IsPathSeparator c = false) →
      (mkPrintData cfg record t ip mac).Tipo.data = ext) ∧
    ((∀ c ∈ (mkPrintData cfg record t ip mac).NomeArquivo.data, c ≠ '.') →
      (mkPrintData cfg record t ip mac).Tipo = "") ∧
    (∀ (dir last : List Char) (s : Char),
      (mkPrintData cfg record t ip mac).NomeArquivo.data = dir ++ s :: last →
      IsPathSeparator s = true → (∀ c ∈ last, c ≠ '.') →
      (mkPrintData cfg record t ip mac).Tipo = "") := by
  refine ⟨rfl, rfl, ?_, ?_, ?_, ?_⟩
  · intro c hc
    simp only [mkPrintData, Ext] at hc
    rcases extScan_shape (TrimSpace (field record 5)).data.reverse [] with h | ⟨ys, h1, h2⟩
    · rw [h] at hc
      simp [TrimPrefix] at hc
    · rw [h1, TrimPrefix_dot_cons] at hc
      simp only [List.append_nil] at hc
      exact h2 c hc
  · intro base ext hn hext
    simp only [mkPrintData, Ext] at hn ⊢
    rw [hn]
    have : (base ++ '.' :: ext).reverse = ext.reverse ++ '.' :: base.reverse := by simp
    rw [this, extScan_dot _ _ _ (by simpa using hext), TrimPrefix_dot_cons]
    simp
  · intro hn
    simp only [mkPrintData, Ext] at hn ⊢
    rw [extScan_nodot _ _ (by simpa using hn)]
    simp [TrimPrefix]
  · intro dir last s hn hs hl
    simp only [mkPrintData, Ext] at hn ⊢
    rw [hn]
    have : (dir ++ s :: last).reverse = last.reverse ++ s :: dir.reverse := by simp
    rw [this, extScan_sep _ _ _ s hs (by simpa using hl)]
    simp [TrimPrefix]


/-- C10, witness: the scenario row is accepted and its type follows the theorem. -/
theorem mkPrintData_tipo_witness :
    acceptRecord rowScenario = some ⟨2024, 1, 5, 9, 0, 0⟩ ∧
    (mkPrintData cfgScenario rowScenario ⟨2024, 1, 5, 9, 0, 0⟩ "" "").NomeArquivo
      = TrimSpace (field rowScenario 5) :=
  ⟨by decide,
    (mkPrintData_tipo cfgScenario rowScenario ⟨2024, 1, 5, 9, 0, 0⟩ "" "" (by decide)).1⟩

/-- C10 as stated fails: the accepted row `rowUpper`, whose document is REPORT.PDF,
gives the type "PDF", which is not in lower case. -/
theorem mkPrintData_tipo_counterexample :
    acceptRecord rowUpper = some ⟨2024, 1, 5, 9, 0, 0⟩ ∧
    (mkPrintData cfgScenario rowUpper ⟨2024, 1, 5, 9, 0, 0⟩ "" "").NomeArquivo
      = "REPORT.PDF" ∧
    (mkPrintData cfgScenario rowUpper ⟨2024, 1, 5, 9, 0, 0⟩ "" "").Tipo = "PDF" ∧
    (∃ c ∈ (mkPrintData cfgScenario rowUpper ⟨2024, 1, 5, 9, 0, 0⟩ "" "").Tipo.data,
      c.isUpper = true) := by
  decide

/-! ## Traces of the delivery steps -/

lemma tryProcessImpression_spec (J : Json) (E : Env σ) (cfg : Config) (d : PrintData)
    (w : World σ) :
    ∃ rv extra,
      (tryProcessImpression J E cfg d w).2.trace
        = w.trace ++ .post (verifyURL cfg) d rv :: extra ∧
      (tryProcessImpression J E cfg d w).2.pending = w.pending ∧
      (tryProcessImpression J E cfg d w).2.lastReadOffsets = w.lastReadOffsets ∧
      (extra = [] ∨ ∃ rs, extra = [.post (sendURL cfg) d rs]) ∧
      ((tryProcessImpression J E cfg d w).1 = true →
        (verifyResponse J rv = .ok true ∨
          ∃ rs, extra = [.post (sendURL cfg) d rs] ∧ sendResponse rs = .ok ())) := by
  refine ⟨(E.post (verifyURL cfg) d w.ext).1, ?_⟩
  simp only [tryProcessImpression, verifyImpressionExists, sendDataToAPI, httpPost]
  cases hv : verifyResponse J (E.post (verifyURL cfg) d w.ext).1 with
  | error e => exact ⟨[], by simp⟩
  | ok b =>
    cases b with
    | true => exact ⟨[], by simp⟩
    | false =>
      refine ⟨[.post (sendURL cfg) d
        (E.post (sendURL cfg) d (E.post (verifyURL cfg) d w.ext).2).1], ?_⟩
      cases hs : sendResponse
        (E.post (sendURL cfg) d (E.post (verifyURL cfg) d w.ext).2).1 with
      | error e => simp
      | ok u => simp [hs]

lemma handedEvents_append (cfg : Config) (a b : List IOEvent) :
    handedEvents cfg (a ++ b) = handedEvents cfg a ++ handedEvents cfg b := by
  simp [handedEvents, List.filterMap_append]

lemma handedEvents_try (cfg : Config) (d : PrintData) (rv : HttpResult)
    (extra : List IOEvent) (h : extra = [] ∨ ∃ rs, extra = [.post (sendURL cfg) d rs]) :
    handedEvents cfg (.post (verifyURL cfg) d rv :: extra) = [d] := by
  have hne : ¬ sendURL cfg = verifyURL cfg := fun h => verifyURL_ne_sendURL cfg h.symm
  rcases h with rfl | ⟨rs, rfl⟩
  · simp [handedEvents]
  · simp [handedEvents, hne]

lemma savePendingImpression_trace (J : Json) (E : Env σ) (d : PrintData) (w : World σ) :
    ∃ name ok, (savePendingImpression J E d w).2.trace
      = w.trace ++ [.write name (J.marshalIndent d) ok] := by
  exact ⟨_, _, rfl⟩

/-- The relation between an event handed to delivery and the record it was built from. -/
lemma processRecord_handed (J : Json) (E : Env σ) (cfg : Config) (w : World σ)
    (record : List String) (t : Time) (h : acceptRecord record = some t) :
    ∃ extra ip mac, (processRecord J E cfg w record).trace = w.trace ++ extra ∧
      handedEvents cfg extra = [mkPrintData cfg record t ip mac] := by
  simp only [processRecord, h]
  obtain ⟨rv, extra, h1, -, -, h4, -⟩ := tryProcessImpression_spec J E cfg
    (mkPrintData cfg record t (getNetworkInfo E w).1.1 (getNetworkInfo E w).1.2)
    (getNetworkInfo E w).2
  have hn : (getNetworkInfo E w).2.trace = w.trace := rfl
  rw [hn] at h1
  split_ifs with hok
  · exact ⟨_, _, _, h1, handedEvents_try cfg _ rv extra h4⟩
  · obtain ⟨name, ok, hs⟩ := savePendingImpression_trace J E
      (mkPrintData cfg record t (getNetworkInfo E w).1.1 (getNetworkInfo E w).1.2)
      (tryProcessImpression J E cfg
        (mkPrintData cfg record t (getNetworkInfo E w).1.1 (getNetworkInfo E w).1.2)
        (getNetworkInfo E w).2).2
    refine ⟨(.post (verifyURL cfg)
        (mkPrintData cfg record t (getNetworkInfo E w).1.1 (getNetworkInfo E w).1.2) rv
          :: extra) ++ [.write name (J.marshalIndent
        (mkPrintData cfg record t (getNetworkInfo E w).1.1 (getNetworkInfo E w).1.2)) ok],
      (getNetworkInfo E w).1.1, (getNetworkInfo E w).1.2, ?_, ?_⟩
    · rw [hs, h1]; simp
    · rw [handedEvents_append, handedEvents_try cfg _ rv extra h4]
      simp [handedEvents]

lemma processRecord_rejected (J : Json) (E : Env σ) (cfg : Config) (w : World σ)
    (record : List String) (h : acceptRecord record = none) :
    processRecord J E cfg w record = w := by
  simp [processRecord, h]

lemma processRows_handed (J : Json) (E : Env σ) (cfg : Config) (rows : List ReadResult) :
    ∀ w : World σ, ∃ extra, (processRows J E cfg rows w).trace = w.trace ++ extra ∧
      List.Forall₂
        (fun ev record => ∃ t ip mac, acceptRecord record = some t ∧
          ev = mkPrintData cfg record t ip mac)
        (handedEvents cfg extra) (acceptedRecords rows) := by
  induction rows with
  | nil => intro w; exact ⟨[], by simp [processRows], by simp [handedEvents, acceptedRecords]⟩
  | cons r rows ih =>
    intro w
    cases r with
    | error =>
      obtain ⟨extra, h1, h2⟩ := ih w
      exact ⟨extra, by simpa [processRows, processRead] using h1,
        by simpa [acceptedRecords] using h2⟩
    | record fields =>
      cases ha : acceptRecord fields with
      | none =>
        obtain ⟨extra, h1, h2⟩ := ih w
        refine ⟨extra, ?_, ?_⟩
        · simpa [processRows, processRead, processRecord_rejected J E cfg w fields ha]
            using h1
        · simpa [acceptedRecords, ha] using h2
      | some t =>
        obtain ⟨e1, ip, mac, h1, h2⟩ := processRecord_handed J E cfg w fields t ha
        obtain ⟨e2, h3, h4⟩ := ih (processRecord J E cfg w fields)
        refine ⟨e1 ++ e2, ?_, ?_⟩
        · simp only [processRows, List.foldl_cons, processRead] at h3 ⊢
          rw [h3, h1, List.append_assoc]
        · rw [handedEvents_append, h2]
          have : acceptedRecords (.record fields :: rows)
              = fields :: acceptedRecords rows := by
            simp [acceptedRecords, ha]
          rw [this]
          exact List.Forall₂.cons ⟨t, ip, mac, ha, rfl⟩ h4

lemma processPapercutLogs_rows_eq (J : Json) (F : FileLib) (E : Env σ) (cfg : Config)
    (w : World σ) :
    ∃ w1 : World σ, w1.trace = w.trace ∧ w1.pending = w.pending ∧
      w1.lastReadOffsets = w.lastReadOffsets ∧
      (processPapercutLogs J F E cfg w).2.trace
        = (processRows J E cfg (tailRows F E cfg w) w1).trace ∧
      (processPapercutLogs J F E cfg w).2.pending
        = (processRows J E cfg (tailRows F E cfg w) w1).pending := by
  refine ⟨{ w with ext := (E.openLog (getPapercutLogPath F cfg.PapercutLogDir
    (E.today w.ext).1) (E.today w.ext).2).2 }, rfl, rfl, rfl, ?_⟩
  simp only [processPapercutLogs, tailRows]
  cases ho : (E.openLog (getPapercutLogPath F cfg.PapercutLogDir (E.today w.ext).1)
      (E.today w.ext).2).1 with
  | notExist => simp [processRows]
  | failed => simp [processRows]
  | opened content =>
    simp only
    cases hs : skipHeader ((w.lastReadOffsets (getPapercutLogPath F cfg.PapercutLogDir
        (E.today w.ext).1)).getD 0)
      (F.csvReadAll (List.drop ((w.lastReadOffsets (getPapercutLogPath F
        cfg.PapercutLogDir (E.today w.ext).1)).getD 0) content)) with
    | none => simp [processRows]
    | some rows => simp

/-- C7 (amended): in one tailing pass the events handed to delivery (the events of the
verify requests the pass issues) correspond one to one and in row order to the rows of
the pass that have at least 14 fields and whose field 0, trimmed, is accepted by
time.Parse with the layout "2006-01-02 15:04:05", each event being the one built from
its row; a row with fewer than 14 fields or a timestamp that time.Parse refuses, and a
row the reader fails on, leaves the whole state unchanged (no event, no HTTP request, no
pending record), and the rows after it are processed all the same.  A field written in
the fixed form YYYY-MM-DD HH:MM:SS is accepted exactly when its month is 1 to 12, its
day is a day of that month, its hour is below 24 and its minute and second below 60. -/
theorem processPapercutLogs_rows (J : Json) (F : FileLib) (E : Env σ) (cfg : Config)
    (w : World σ) :
    List.Forall₂
      (fun ev record => ∃ t ip mac, acceptRecord record = some t ∧
        ev = mkPrintData cfg record t ip mac)
      (handedEvents cfg ((processPapercutLogs J F E cfg w).2.trace.drop w.trace.length))
      (acceptedRecords (tailRows F E cfg w)) ∧
    (∀ record : List String, (acceptRecord record).isSome = true ↔
      (14 ≤ record.length ∧ (timeParse (TrimSpace (field record 0))).isSome = true)) ∧
    (∀ (w1 : World σ) (record : List String), acceptRecord record = none →
      processRead J E cfg w1 (.record record) = w1) ∧
    (∀ w1 : World σ, processRead J E cfg w1 .error = w1) ∧
    (∀ (pre post : List ReadResult) (r : ReadResult) (w1 : World σ),
      (r = .error ∨ ∃ record, r = .record record ∧ acceptRecord record = none) →
      processRows J E cfg (pre ++ r :: post) w1 = processRows J E cfg (pre ++ post) w1) ∧
    (∀ s : String, matchesFixedPattern s = true →
      ∃ y1 y2 y3 y4 m1 m2 d1 d2 h1 h2 n1 n2 s1 s2 : Char,
        s = ⟨[y1, y2, y3, y4, '-', m1, m2, '-', d1, d2, ' ', h1, h2, ':', n1, n2, ':',
          s1, s2]⟩ ∧
        ((timeParse s).isSome = true ↔
          (1 ≤ digitVal m1 * 10 + digitVal m2 ∧ digitVal m1 * 10 + digitVal m2 ≤ 12 ∧
            1 ≤ digitVal d1 * 10 + digitVal d2 ∧
            digitVal d1 * 10 + digitVal d2
              ≤ daysIn (digitVal m1 * 10 + digitVal m2) (digitsVal [y1, y2, y3, y4]) ∧
            digitVal h1 * 10 + digitVal h2 < 24 ∧ digitVal n1 * 10 + digitVal n2 < 60 ∧
            digitVal s1 * 10 + digitVal s2 < 60))) := by
  refine ⟨?_, ?_, ?_, ?_, ?_, ?_⟩
  · obtain ⟨w1, h1, -, -, h4, -⟩ := processPapercutLogs_rows_eq J F E cfg w
    obtain ⟨extra, h5, h6⟩ := processRows_handed J E cfg (tailRows F E cfg w) w1
    rw [h4, h5, h1, List.drop_left]
    exact h6
  · intro record
    unfold acceptRecord
    by_cases hl : record.length < 14
    · simp [hl]
    · simp [hl]; omega
  · intro w1 record h
    simp [processRead, processRecord_rejected J E cfg w1 record h]
  · intro w1; rfl
  · intro pre post r w1 h
    have hr : ∀ w2 : World σ, processRead J E cfg w2 r = w2 := by
      intro w2
      rcases h with rfl | ⟨record, rfl, ha⟩
      · rfl
      · simp [processRead, processRecord_rejected J E cfg w2 record ha]
    simp [processRows, List.foldl_append, hr]
  · intro s hs
    obtain ⟨y1, y2, y3, y4, m1, m2, d1, d2, h1, h2, n1, n2, s1, s2, rfl, hy1, hy2, hy3,
      hy4, hm1, hm2, hd1, hd2, hh1, hh2, hn1, hn2, hs1, hs2⟩ :=
      matchesFixedPattern_shape s hs
    exact ⟨y1, y2, y3, y4, m1, m2, d1, d2, h1, h2, n1, n2, s1, s2, rfl,
      timeParse_fixed y1 y2 y3 y4 m1 m2 d1 d2 h1 h2 n1 n2 s1 s2 hy1 hy2 hy3 hy4 hm1 hm2
        hd1 hd2 hh1 hh2 hn1 hn2 hs1 hs2⟩

/-- C7 as stated fails: in a pass over a log whose rows are `rowInvalid` and `rowLoose`,
both of 14 fields, the row whose field 0 is in the fixed form ("2024-13-45 99:99:99")
yields no event, and the row whose field 0 is not ("2024-01-05 9:00:00.5") is the one
handed to delivery. -/
theorem processPapercutLogs_rows_counterexample :
    tailRows fileLibLoose (logCollector 201 5) cfgScenario emptyWorld
      = [.record rowInvalid, .record rowLoose] ∧
    14 ≤ rowInvalid.length ∧ 14 ≤ rowLoose.length ∧
    field rowInvalid 0 = "2024-13-45 99:99:99" ∧
    matchesFixedPattern (field rowInvalid 0) = true ∧
    field rowLoose 0 = "2024-01-05 9:00:00.5" ∧
    matchesFixedPattern (field rowLoose 0) = false ∧
    handedEvents cfgScenario
      (processPapercutLogs jsonToy fileLibLoose (logCollector 201 5) cfgScenario
        emptyWorld).2.trace
      = [mkPrintData cfgScenario rowLoose ⟨2024, 1, 5, 9, 0, 0⟩ "10.0.0.5"
          "aa:bb:cc:dd:ee:ff"] := by
  decide

/-! ## Idempotence of delivery -/

lemma listCollector_faithful (sendStatus : Nat) (clock : Int) :
    FaithfulCollector jsonToy (listCollector sendStatus clock) cfgScenario
      (fun s d => decide (d ∈ s)) := by
  have hne : ¬ sendURL cfgScenario = verifyURL cfgScenario :=
    fun h => verifyURL_ne_sendURL cfgScenario h.symm
  have hb : ¬ bodyFalse = bodyTrue := by decide
  refine ⟨?_, ?_, ?_⟩
  · intro s d
    by_cases hd : d ∈ s <;>
      simp [listCollector, verifyResponse, StatusOK, jsonToy, hd, hb]
  · intro s d d2
    simp [listCollector]
  · intro s d h
    simp only [listCollector, hne, if_false, if_true, sendResponse] at h ⊢
    by_cases h1 : sendStatus = 200 ∨ sendStatus = 201
    · simp [h1]
    · simp only [StatusOK, StatusCreated, ne_eq] at h
      rw [if_pos (by omega)] at h
      exact absurd h (by simp)

/-- C6 (amended): for every event that the collector has not yet ingested, and every
collector whose verify endpoint reports existence exactly for the events it has
ingested and whose ingest endpoint accepts the event (status 200 or 201), two calls of
tryProcessImpression on the event issue a verify request, one ingest request and a
second verify request that is answered "exists": exactly one ingest request and one
"already exists" skip, and both calls return success. -/
theorem tryProcessImpression_twice (J : Json) (E : Env σ) (cfg : Config)
    (ingested : σ → PrintData → Bool) (d : PrintData) (w : World σ)
    (hc : FaithfulCollector J E cfg ingested)
    (hfresh : ingested w.ext d = false)
    (haccept : sendResponse
      (E.post (sendURL cfg) d (E.post (verifyURL cfg) d w.ext).2).1 = .ok ()) :
    (tryProcessImpression J E cfg d w).1 = true ∧
    (tryProcessImpression J E cfg d (tryProcessImpression J E cfg d w).2).1 = true ∧
    (∃ rv1 rs rv2,
      (tryProcessImpression J E cfg d (tryProcessImpression J E cfg d w).2).2.trace
        = w.trace ++ [.post (verifyURL cfg) d rv1, .post (sendURL cfg) d rs,
            .post (verifyURL cfg) d rv2] ∧
      verifyResponse J rv1 = .ok false ∧ sendResponse rs = .ok () ∧
      verifyResponse J rv2 = .ok true) ∧
    (((tryProcessImpression J E cfg d (tryProcessImpression J E cfg d w).2).2.trace.drop
      w.trace.length).countP (IOEvent.isPostTo (sendURL cfg))) = 1 := by
  have hne := verifyURL_ne_sendURL cfg
  have hv1 : verifyResponse J (E.post (verifyURL cfg) d w.ext).1 = .ok false := by
    rw [hc.verify_reports, hfresh]
  have hing : ingested (E.post (sendURL cfg) d (E.post (verifyURL cfg) d w.ext).2).2 d
      = true := hc.send_ingests _ _ haccept
  have hv2 : verifyResponse J (E.post (verifyURL cfg) d
      (E.post (sendURL cfg) d (E.post (verifyURL cfg) d w.ext).2).2).1 = .ok true := by
    rw [hc.verify_reports, hing]
  have e1 : tryProcessImpression J E cfg d w = (true,
      { w with
        ext := (E.post (sendURL cfg) d (E.post (verifyURL cfg) d w.ext).2).2
        trace := w.trace ++ [.post (verifyURL cfg) d (E.post (verifyURL cfg) d w.ext).1]
          ++ [.post (sendURL cfg) d
            (E.post (sendURL cfg) d (E.post (verifyURL cfg) d w.ext).2).1] }) := by
    simp only [tryProcessImpression, verifyImpressionExists, sendDataToAPI, httpPost, hv1,
      haccept]
  rw [e1]
  simp only [tryProcessImpression, verifyImpressionExists, sendDataToAPI, httpPost, hv2]
  refine ⟨trivial, trivial, ⟨_, _, _, ?_, hv1, haccept, hv2⟩, ?_⟩
  · simp
  · simp [IOEvent.isPostTo, hne]

/-- C6, witness: a list-keeping collector that answers the ingest with 201, and the
scenario event, not yet ingested. -/
theorem tryProcessImpression_twice_witness :
    FaithfulCollector jsonToy (listCollector 201 0) cfgScenario
      (fun s d => decide (d ∈ s)) ∧
    decide (eventScenario ∈ emptyWorld.ext) = false ∧
    (tryProcessImpression jsonToy (listCollector 201 0) cfgScenario eventScenario
      (tryProcessImpression jsonToy (listCollector 201 0) cfgScenario eventScenario
        emptyWorld).2).1 = true :=
  ⟨listCollector_faithful 201 0, by decide,
    (tryProcessImpression_twice jsonToy (listCollector 201 0) cfgScenario
      (fun s d => decide (d ∈ s)) eventScenario emptyWorld
      (listCollector_faithful 201 0) (by decide) rfl).2.1⟩

/-- C6 as stated fails: a collector whose verify endpoint reports existence exactly for
the events it has ingested, but whose ingest endpoint answers 500, gets two ingest
requests and no "already exists" skip from two calls, and both calls return failure. -/
theorem tryProcessImpression_twice_counterexample :
    FaithfulCollector jsonToy (listCollector 500 0) cfgScenario
      (fun s d => decide (d ∈ s)) ∧
    (tryProcessImpression jsonToy (listCollector 500 0) cfgScenario eventScenario
      emptyWorld).1 = false ∧
    (tryProcessImpression jsonToy (listCollector 500 0) cfgScenario eventScenario
      (tryProcessImpression jsonToy (listCollector 500 0) cfgScenario eventScenario
        emptyWorld).2).1 = false ∧
    ((tryProcessImpression jsonToy (listCollector 500 0) cfgScenario eventScenario
      (tryProcessImpression jsonToy (listCollector 500 0) cfgScenario eventScenario
        emptyWorld).2).2.trace.countP (IOEvent.isPostTo (sendURL cfgScenario))) = 2 :=
  ⟨listCollector_faithful 500 0, by decide, by decide, by decide⟩

/-! ## Pending queue -/

lemma writeFile_fresh (dir : List DirEntry) (name data : String)
    (h : ∀ e ∈ dir, e.name ≠ name) :
    writeFile dir name data = dir ++ [⟨name, false, data⟩] := by
  have : dir.any (fun e => decide (e.name = name)) = false := by
    simpa [List.any_eq_false] using h
  simp [writeFile, this]

lemma writeFile_mem_other (dir : List DirEntry) (name data : String) (e : DirEntry)
    (he : e ∈ dir) (hn : e.name ≠ name) : e ∈ writeFile dir name data := by
  unfold writeFile
  split_ifs
  · exact List.mem_map.2 ⟨e, he, by simp [hn]⟩
  · exact List.mem_append_left _ he

lemma writeFile_mem_rev (dir : List DirEntry) (name data : String) (e : DirEntry)
    (he : e ∈ writeFile dir name data) (hn : e.name ≠ name) : e ∈ dir := by
  unfold writeFile at he
  split_ifs at he
  · obtain ⟨g, hg, rfl⟩ := List.mem_map.1 he
    by_cases hgn : g.name = name
    · simp [hgn] at hn
    · simpa [hgn] using hg
  · rcases List.mem_append.1 he with h | h
    · exact h
    · simp at h; subst h; exact absurd rfl hn

lemma writeFile_mem_new (dir : List DirEntry) (name data : String)
    (h : ∀ e ∈ dir, e.name = name → e.isDir = false) :
    (⟨name, false, data⟩ : DirEntry) ∈ writeFile dir name data := by
  unfold writeFile
  split_ifs with hany
  · obtain ⟨g, hg, hgn⟩ := List.any_eq_true.1 hany
    have hgn : g.name = name := by simpa using hgn
    refine List.mem_map.2 ⟨g, hg, ?_⟩
    have := h g hg hgn
    cases g
    simp_all
  · simp

lemma savePendingImpression_ok (J : Json) (E : Env σ) (d : PrintData) (w : World σ)
    (hok : (savePendingImpression J E d w).1 = true) :
    (savePendingImpression J E d w).2.pending
      = writeFile w.pending (pendingFileName (E.unixNano w.ext).1) (J.marshalIndent d) ∧
    (∀ e ∈ w.pending, e.name = pendingFileName (E.unixNano w.ext).1 → e.isDir = false) ∧
    (savePendingImpression J E d w).2.trace = w.trace ++
      [.write (pendingFileName (E.unixNano w.ext).1) (J.marshalIndent d) true] := by
  simp only [savePendingImpression] at hok ⊢
  rw [hok]
  refine ⟨by simp, ?_, rfl⟩
  intro e he hn
  simp only [Bool.and_eq_true, Bool.not_eq_true', List.any_eq_false] at hok
  have := hok.2 e he
  simpa [hn] using this

/-- What an enqueue does to the queue: savePendingImpression writes the event to the file
named by the clock reading (UnixNano, then ".json").  After a successful enqueue that
file is a record holding the event, and every record under another name is still present
with unchanged content, no other record having appeared; when no entry of that name was
in the queue before, all records that were in the queue are still present with unchanged
content and exactly one new record has been added. -/
lemma savePendingImpression_record (J : Json) (E : Env σ) (d : PrintData) (w : World σ)
    (hok : (savePendingImpression J E d w).1 = true) :
    (⟨pendingFileName (E.unixNano w.ext).1, false, J.marshalIndent d⟩ : DirEntry)
      ∈ (savePendingImpression J E d w).2.pending ∧
    (∀ e ∈ w.pending, e.name ≠ pendingFileName (E.unixNano w.ext).1 →
      e ∈ (savePendingImpression J E d w).2.pending) ∧
    (∀ e ∈ (savePendingImpression J E d w).2.pending,
      e.name ≠ pendingFileName (E.unixNano w.ext).1 → e ∈ w.pending) ∧
    ((∀ e ∈ w.pending, e.name ≠ pendingFileName (E.unixNano w.ext).1) →
      (savePendingImpression J E d w).2.pending = w.pending ++
        [⟨pendingFileName (E.unixNano w.ext).1, false, J.marshalIndent d⟩]) := by
  obtain ⟨h1, h2, -⟩ := savePendingImpression_ok J E d w hok
  rw [h1]
  exact ⟨writeFile_mem_new _ _ _ h2, fun e he hn => writeFile_mem_other _ _ _ e he hn,
    fun e he hn => writeFile_mem_rev _ _ _ e he hn, fun hf => writeFile_fresh _ _ _ hf⟩

/-- An enqueue into the directory `dirMixed` at clock reading 5, a name not yet there. -/
lemma savePendingImpression_record_fresh :
    (savePendingImpression jsonToy (listCollector 201 5) eventScenario
      { emptyWorld with pending := dirMixed }).1 = true ∧
    (savePendingImpression jsonToy (listCollector 201 5) eventScenario
      { emptyWorld with pending := dirMixed }).2.pending
      = dirMixed ++ [⟨"5.json", false, "scenario"⟩] :=
  ⟨by decide,
    (savePendingImpression_record jsonToy (listCollector 201 5) eventScenario
      { emptyWorld with pending := dirMixed } (by decide)).2.2.2 (by decide)⟩

/-- C4, the code at the failing input: the clock gives the reading 5 to two enqueues in
a row, of `eventScenario` and then of `eventOther`, into an empty queue.  Both enqueues
report success and both write the file 5.json: after the second the queue holds one
record, that of `eventOther`, and the record of `eventScenario` is gone, where C4 asks
for the earlier record to be kept and a second one added under a name of its own. -/
theorem savePendingImpression_overwrites :
    (savePendingImpression jsonToy (listCollector 201 5) eventScenario emptyWorld).1
      = true ∧
    (savePendingImpression jsonToy (listCollector 201 5) eventScenario emptyWorld).2.pending
      = [⟨"5.json", false, "scenario"⟩] ∧
    (savePendingImpression jsonToy (listCollector 201 5) eventOther
      (savePendingImpression jsonToy (listCollector 201 5) eventScenario emptyWorld).2).1
      = true ∧
    (savePendingImpression jsonToy (listCollector 201 5) eventOther
      (savePendingImpression jsonToy (listCollector 201 5) eventScenario emptyWorld).2
      ).2.pending = [⟨"5.json", false, "other"⟩] ∧
    (⟨"5.json", false, "scenario"⟩ : DirEntry) ∉
      (savePendingImpression jsonToy (listCollector 201 5) eventOther
        (savePendingImpression jsonToy (listCollector 201 5) eventScenario emptyWorld).2
        ).2.pending ∧
    (savePendingImpression jsonToy (listCollector 201 5) eventOther
      (savePendingImpression jsonToy (listCollector 201 5) eventScenario emptyWorld).2
      ).2.pending.length = 1 := by
  decide

lemma find_of_mem_nodup (dir : List DirEntry) (f : DirEntry)
    (hnd : (dir.map DirEntry.name).Nodup) (hf : f ∈ dir) :
    dir.find? (fun e => decide (e.name = f.name)) = some f := by
  induction dir with
  | nil => simp at hf
  | cons g dir ih =>
    simp only [List.map_cons, List.nodup_cons] at hnd
    rcases List.mem_cons.1 hf with rfl | hf2
    · simp
    · have hne : g.name ≠ f.name := by
        intro h
        exact hnd.1 (h ▸ List.mem_map_of_mem _ hf2)
      simp [List.find?_cons, hne, ih hnd.2 hf2]

lemma readFile_of_mem (dir : List DirEntry) (f : DirEntry)
    (hnd : (dir.map DirEntry.name).Nodup) (hf : f ∈ dir) :
    readFile dir f.name = if f.isDir then none else some f.content := by
  simp [readFile, find_of_mem_nodup dir f hnd hf]

lemma readFile_some (dir : List DirEntry) (name c : String)
    (h : readFile dir name = some c) :
    ∃ g ∈ dir, g.name = name ∧ g.isDir = false ∧ g.content = c := by
  unfold readFile at h
  cases hfind : dir.find? (fun e => decide (e.name = name)) with
  | none => simp [hfind] at h
  | some g =>
    simp only [hfind] at h
    split_ifs at h with hd
    simp only [Option.some.injEq] at h
    exact ⟨g, List.mem_of_find?_eq_some hfind, by simpa using List.find?_some hfind,
      by simpa using hd, h⟩

lemma removeFile_sublist (dir : List DirEntry) (name : String) :
    (removeFile dir name).Sublist dir := List.filter_sublist _

lemma mem_removeFile (dir : List DirEntry) (name : String) (e : DirEntry) :
    e ∈ removeFile dir name ↔ e ∈ dir ∧ e.name ≠ name := by
  simp [removeFile]

lemma processPendingFile_pending (J : Json) (E : Env σ) (cfg : Config) (w : World σ)
    (f : DirEntry) :
    (processPendingFile J E cfg w f).pending = w.pending ∨
    (processPendingFile J E cfg w f).pending = removeFile w.pending f.name := by
  unfold processPendingFile
  split_ifs
  · exact Or.inl rfl
  · cases hr : readFile w.pending f.name with
    | none => exact Or.inl rfl
    | some c =>
      cases hu : J.unmarshalPrintData c with
      | none => right; simp only [hu]
      | some d =>
        obtain ⟨rv, extra, -, hp, -⟩ := tryProcessImpression_spec J E cfg d w
        simp only [hu]
        split_ifs
        · right; simp [hp]
        · left; exact hp

lemma processPendingFile_pending_mem (J : Json) (E : Env σ) (cfg : Config) (w : World σ)
    (f : DirEntry) (hnd : (w.pending.map DirEntry.name).Nodup) (hf : f ∈ w.pending) :
    (processPendingFile J E cfg w f).pending =
      if retires J E cfg w f then removeFile w.pending f.name else w.pending := by
  unfold processPendingFile retires
  rw [readFile_of_mem _ _ hnd hf]
  by_cases hd : f.isDir = true
  · simp [hd]
  · have hd2 : f.isDir = false := by simpa using hd
    by_cases hs : HasSuffix f.name ".json" = true
    · simp only [hd2, hs, Bool.not_true, Bool.or_false, Bool.false_eq_true, if_false,
        Bool.not_false, Bool.and_self, Bool.true_and]
      cases hu : J.unmarshalPrintData f.content with
      | none => simp
      | some d =>
        obtain ⟨rv, extra, -, hp, -⟩ := tryProcessImpression_spec J E cfg d w
        simp only
        split_ifs <;> simp [hp]
    · have hs2 : HasSuffix f.name ".json" = false := by simpa using hs
      simp [hd2, hs2]

lemma foldl_pending_sublist (J : Json) (E : Env σ) (cfg : Config) (l : List DirEntry) :
    ∀ w : World σ, (l.foldl (processPendingFile J E cfg) w).pending.Sublist w.pending := by
  induction l with
  | nil => intro w; exact List.Sublist.refl _
  | cons f l ih =>
    intro w
    simp only [List.foldl_cons]
    refine (ih _).trans ?_
    rcases processPendingFile_pending J E cfg w f with h | h
    · rw [h]
    · rw [h]; exact removeFile_sublist _ _

lemma foldl_pending_keeps (J : Json) (E : Env σ) (cfg : Config) (l : List DirEntry) :
    ∀ (w : World σ) (e : DirEntry), e ∈ w.pending → e.name ∉ l.map DirEntry.name →
      e ∈ (l.foldl (processPendingFile J E cfg) w).pending := by
  induction l with
  | nil => intro w e he _; exact he
  | cons f l ih =>
    intro w e he hn
    simp only [List.map_cons, List.mem_cons, not_or] at hn
    simp only [List.foldl_cons]
    refine ih _ e ?_ hn.2
    rcases processPendingFile_pending J E cfg w f with h | h
    · rw [h]; exact he
    · rw [h]; exact (mem_removeFile _ _ _).2 ⟨he, hn.1⟩

lemma processPendingFile_trace (J : Json) (E : Env σ) (cfg : Config) (w : World σ)
    (f : DirEntry) :
    ∃ extra, (processPendingFile J E cfg w f).trace = w.trace ++ extra ∧
      ∀ x ∈ extra, ∃ g ∈ w.pending, g.isDir = false ∧ HasSuffix g.name ".json" = true ∧
        ∃ d url r, J.unmarshalPrintData g.content = some d ∧ x = .post url d r := by
  unfold processPendingFile
  split_ifs with hskip
  · exact ⟨[], by simp, by simp⟩
  · cases hr : readFile w.pending f.name with
    | none => exact ⟨[], by simp, by simp⟩
    | some c =>
      obtain ⟨g, hg, hgn, hgd, hgc⟩ := readFile_some _ _ _ hr
      cases hu : J.unmarshalPrintData c with
      | none => exact ⟨[], by simp [hu], by simp⟩
      | some d =>
        obtain ⟨rv, extra, ht, -, -, hx, -⟩ := tryProcessImpression_spec J E cfg d w
        have hsuf : HasSuffix g.name ".json" = true := by
          rw [hgn]
          have : f.isDir = false ∧ HasSuffix f.name ".json" = true := by simpa using hskip
          exact this.2
        refine ⟨.post (verifyURL cfg) d rv :: extra, ?_, ?_⟩
        · simp only [hu]
          split_ifs <;> simp [ht]
        · intro x hxm
          refine ⟨g, hg, hgd, hsuf, d, ?_⟩
          rw [hgc, hu]
          rcases List.mem_cons.1 hxm with rfl | hxm
          · exact ⟨_, _, rfl, rfl⟩
          · rcases hx with rfl | ⟨rs, rfl⟩
            · simp at hxm
            · simp at hxm; exact ⟨_, _, rfl, hxm⟩

lemma processPendingFile_corrupt (J : Json) (E : Env σ) (cfg : Config) (w : World σ)
    (f : DirEntry) (hnd : (w.pending.map DirEntry.name).Nodup) (hf : f ∈ w.pending)
    (hu : J.unmarshalPrintData f.content = none) :
    (processPendingFile J E cfg w f).trace = w.trace := by
  unfold processPendingFile
  rw [readFile_of_mem _ _ hnd hf]
  split_ifs <;> simp [hu]

lemma foldl_trace (J : Json) (E : Env σ) (cfg : Config) (l : List DirEntry) :
    ∀ w : World σ, ∃ extra,
      (l.foldl (processPendingFile J E cfg) w).trace = w.trace ++ extra ∧
      ∀ x ∈ extra, ∃ g ∈ w.pending, g.isDir = false ∧ HasSuffix g.name ".json" = true ∧
        ∃ d url r, J.unmarshalPrintData g.content = some d ∧ x = .post url d r := by
  induction l with
  | nil => intro w; exact ⟨[], by simp, by simp⟩
  | cons f l ih =>
    intro w
    obtain ⟨e1, h1, h2⟩ := processPendingFile_trace J E cfg w f
    obtain ⟨e2, h3, h4⟩ := ih (processPendingFile J E cfg w f)
    refine ⟨e1 ++ e2, ?_, ?_⟩
    · simp only [List.foldl_cons]; rw [h3, h1, List.append_assoc]
    · intro x hx
      rcases List.mem_append.1 hx with hx | hx
      · exact h2 x hx
      · obtain ⟨g, hg, rest⟩ := h4 x hx
        have hsub : (processPendingFile J E cfg w f).pending.Sublist w.pending := by
          rcases processPendingFile_pending J E cfg w f with h | h
          · rw [h]
          · rw [h]; exact removeFile_sublist _ _
        exact ⟨g, hsub.subset hg, rest⟩

/-- C3: for every content of the pending directory (entries with distinct names), after
processPendingImpressions the directory is the directory of before with some entries
removed and nothing added or changed; an entry is removed exactly when it is a regular
.json file that either does not decode as an event or decodes to an event whose
delivery, attempted when the drain comes to it, returned success, so every decodable
record whose delivery failed, every other record than a removed one, and every entry
that is no .json record is still present with unchanged content; a record that does not
decode causes no request at its turn, and every request of the drain carries the event
decoded from a record of the directory. -/
theorem processPendingImpressions_directory (J : Json) (E : Env σ) (cfg : Config)
    (w : World σ) (hnd : (w.pending.map DirEntry.name).Nodup) :
    (processPendingImpressions J E cfg w).pending.Sublist w.pending ∧
    (∀ (pre post : List DirEntry) (file : DirEntry), w.pending = pre ++ file :: post →
      (file ∈ (processPendingImpressions J E cfg w).pending ↔
        retires J E cfg (pre.foldl (processPendingFile J E cfg) w) file = false) ∧
      (J.unmarshalPrintData file.content = none →
        (processPendingFile J E cfg (pre.foldl (processPendingFile J E cfg) w) file).trace
          = (pre.foldl (processPendingFile J E cfg) w).trace)) ∧
    (∀ x ∈ (processPendingImpressions J E cfg w).trace.drop w.trace.length,
      ∃ g ∈ w.pending, g.isDir = false ∧ HasSuffix g.name ".json" = true ∧
        ∃ d url r, J.unmarshalPrintData g.content = some d ∧ x = .post url d r) := by
  refine ⟨foldl_pending_sublist J E cfg _ w, ?_, ?_⟩
  · intro pre post file hsplit
    have hnd2 := hnd
    rw [hsplit] at hnd2
    simp only [List.map_append, List.map_cons] at hnd2
    have hpre : file.name ∉ pre.map DirEntry.name := by
      intro h
      exact (List.nodup_append.1 hnd2).2.2 h (List.mem_cons_self _ _)
    have hpost : file.name ∉ post.map DirEntry.name :=
      (List.nodup_cons.1 (List.nodup_append.1 hnd2).2.1).1
    have hfw : file ∈ w.pending := by rw [hsplit]; simp
    have hf1 : file ∈ (pre.foldl (processPendingFile J E cfg) w).pending :=
      foldl_pending_keeps J E cfg pre w file hfw hpre
    have hnd1 : ((pre.foldl (processPendingFile J E cfg) w).pending.map
        DirEntry.name).Nodup :=
      hnd.sublist ((foldl_pending_sublist J E cfg pre w).map _)
    have hstep := processPendingFile_pending_mem J E cfg _ file hnd1 hf1
    have hfin : processPendingImpressions J E cfg w
        = post.foldl (processPendingFile J E cfg)
          (processPendingFile J E cfg (pre.foldl (processPendingFile J E cfg) w) file) := by
      simp [processPendingImpressions, hsplit, List.foldl_append]
    refine ⟨⟨?_, ?_⟩, ?_⟩
    · intro hmem
      rw [hfin] at hmem
      have h2 := (foldl_pending_sublist J E cfg post _).subset hmem
      rw [hstep] at h2
      by_contra hret
      have hret : retires J E cfg (pre.foldl (processPendingFile J E cfg) w) file
          = true := by simpa using hret
      rw [hret] at h2
      simp only [if_true] at h2
      exact ((mem_removeFile _ _ _).1 h2).2 rfl
    · intro hret
      rw [hfin]
      refine foldl_pending_keeps J E cfg post _ file ?_ hpost
      rw [hstep, hret]
      simpa using hf1
    · intro hu
      exact processPendingFile_corrupt J E cfg _ file hnd1 hf1 hu
  · obtain ⟨extra, h1, h2⟩ := foldl_trace J E cfg w.pending w
    intro x hx
    simp only [processPendingImpressions] at hx
    rw [h1, List.drop_left] at hx
    exact h2 x hx

/-- C3, witness: the drain of `dirMixed` against a collector that refuses the ingest
removes the corrupt record 1.json only. -/
theorem processPendingImpressions_directory_witness :
    (dirMixed.map DirEntry.name).Nodup ∧
    (processPendingImpressions jsonToy (listCollector 500 5) cfgScenario
      { emptyWorld with pending := dirMixed }).pending.Sublist dirMixed ∧
    (processPendingImpressions jsonToy (listCollector 500 5) cfgScenario
      { emptyWorld with pending := dirMixed }).pending
      = [⟨"2.json", false, "scenario"⟩, ⟨"notes.txt", false, "x"⟩] :=
  ⟨by decide,
    (processPendingImpressions_directory jsonToy (listCollector 500 5) cfgScenario
      { emptyWorld with pending := dirMixed } (by decide)).1, by decide⟩

/-! ## No loss -/

lemma writtenNames_append (a b : List IOEvent) :
    writtenNames (a ++ b) = writtenNames a ++ writtenNames b := by
  simp [writtenNames, List.filterMap_append]

lemma GoodTrace_prefix (J : Json) (cfg : Config) (names0 : List String)
    (T X : List IOEvent) (h : GoodTrace J cfg names0 (T ++ X)) :
    GoodTrace J cfg names0 T := by
  obtain ⟨h1, h2, h3⟩ := h
  refine ⟨fun n d ok hm => h1 n d ok (List.mem_append_left _ hm), ?_, ?_⟩
  · rw [writtenNames_append, ← List.append_assoc] at h2
    exact (List.nodup_append.1 h2).1
  · intro d hd
    exact h3 d (by rw [handedEvents_append]; exact List.mem_append_left _ hd)

lemma Delivered_mono (J : Json) (cfg : Config) (T X : List IOEvent) (d : PrintData)
    (h : Delivered J cfg T d) : Delivered J cfg (T ++ X) d := by
  obtain ⟨r, h | h⟩ := h
  · exact ⟨r, Or.inl ⟨List.mem_append_left _ h.1, h.2⟩⟩
  · exact ⟨r, Or.inr ⟨List.mem_append_left _ h.1, h.2⟩⟩

lemma HasSuffix_pendingFileName (n : Int) : HasSuffix (pendingFileName n) ".json" = true := by
  simp only [HasSuffix, pendingFileName, String.data_append, List.isSuffixOf_iff_suffix]
  exact List.suffix_append _ _

lemma writtenNames_try (cfg : Config) (d : PrintData) (rv : HttpResult)
    (extra : List IOEvent) (h : extra = [] ∨ ∃ rs, extra = [.post (sendURL cfg) d rs]) :
    writtenNames (.post (verifyURL cfg) d rv :: extra) = [] := by
  rcases h with rfl | ⟨rs, rfl⟩ <;> simp [writtenNames]

lemma Delivered_try (J : Json) (cfg : Config) (T : List IOEvent) (d : PrintData)
    (rv : HttpResult) (extra : List IOEvent)
    (h : verifyResponse J rv = .ok true ∨
      ∃ rs, extra = [.post (sendURL cfg) d rs] ∧ sendResponse rs = .ok ()) :
    Delivered J cfg (T ++ .post (verifyURL cfg) d rv :: extra) d := by
  rcases h with h | ⟨rs, rfl, h⟩
  · exact ⟨rv, Or.inl ⟨by simp, h⟩⟩
  · exact ⟨rs, Or.inr ⟨by simp, h⟩⟩

lemma processRecord_noLoss (J : Json) (E : Env σ) (cfg : Config) (names0 : List String)
    (w : World σ) (record : List String) :
    (∃ X, (processRecord J E cfg w record).trace = w.trace ++ X) ∧
    (GoodTrace J cfg names0 (processRecord J E cfg w record).trace →
      NoLoss J cfg names0 w.trace w.pending →
      NoLoss J cfg names0 (processRecord J E cfg w record).trace
        (processRecord J E cfg w record).pending) := by
  cases ha : acceptRecord record with
  | none =>
    rw [processRecord_rejected J E cfg w record ha]
    exact ⟨⟨[], by simp⟩, fun _ h => h⟩
  | some t =>
    simp only [processRecord, ha]
    obtain ⟨rv, extra, ht, hp, -, hx, hdel⟩ := tryProcessImpression_spec J E cfg
      (mkPrintData cfg record t (getNetworkInfo E w).1.1 (getNetworkInfo E w).1.2)
      (getNetworkInfo E w).2
    have hn : (getNetworkInfo E w).2.trace = w.trace := rfl
    have hnp : (getNetworkInfo E w).2.pending = w.pending := rfl
    rw [hn] at ht
    rw [hnp] at hp
    generalize mkPrintData cfg record t (getNetworkInfo E w).1.1 (getNetworkInfo E w).1.2
      = d at ht hp hx hdel ⊢
    generalize (getNetworkInfo E w).2 = w1 at ht hp hx hdel ⊢
    have hh : handedEvents cfg (w.trace ++ .post (verifyURL cfg) d rv :: extra)
        = handedEvents cfg w.trace ++ [d] := by
      rw [handedEvents_append, handedEvents_try cfg d rv extra hx]
    have hwn : writtenNames (w.trace ++ .post (verifyURL cfg) d rv :: extra)
        = writtenNames w.trace := by
      rw [writtenNames_append, writtenNames_try cfg d rv extra hx, List.append_nil]
    by_cases hok : (tryProcessImpression J E cfg d w1).1 = true
    · simp only [hok, if_true]
      refine ⟨⟨_, ht⟩, ?_⟩
      rw [ht, hp]
      rintro - ⟨ha1, ha2, ha3⟩
      refine ⟨?_, ?_, ha3⟩
      · intro d2 hd2
        rw [hh] at hd2
        rcases List.mem_append.1 hd2 with hd2 | hd2
        · rcases ha1 d2 hd2 with h | h
          · exact Or.inl (Delivered_mono J cfg _ _ d2 h)
          · exact Or.inr h
        · simp only [List.mem_singleton] at hd2
          subst hd2
          exact Or.inl (Delivered_try J cfg _ _ rv extra (hdel hok))
      · intro f hf
        rw [hwn]
        exact ha2 f hf
    · simp only [hok, Bool.false_eq_true, if_false]
      have hst : (savePendingImpression J E d (tryProcessImpression J E cfg d w1).2).2.trace
          = (tryProcessImpression J E cfg d w1).2.trace ++
            [.write (pendingFileName (E.unixNano (tryProcessImpression J E cfg d w1).2.ext).1)
              (J.marshalIndent d)
              (savePendingImpression J E d (tryProcessImpression J E cfg d w1).2).1] := rfl
      refine ⟨⟨(.post (verifyURL cfg) d rv :: extra) ++
        [.write (pendingFileName (E.unixNano (tryProcessImpression J E cfg d w1).2.ext).1)
          (J.marshalIndent d)
          (savePendingImpression J E d (tryProcessImpression J E cfg d w1).2).1],
        by rw [hst, ht, List.append_assoc]⟩, ?_⟩
      intro hg ⟨ha1, ha2, ha3⟩
      have hsok : (savePendingImpression J E d (tryProcessImpression J E cfg d w1).2).1
          = true := by
        apply hg.1 _ _ _
        rw [hst]
        exact List.mem_append_right _ (List.mem_singleton_self _)
      obtain ⟨hs1, -, hs3⟩ := savePendingImpression_ok J E d _ hsok
      rw [hp] at hs1
      rw [ht] at hs3
      have hname := HasSuffix_pendingFileName
        (E.unixNano (tryProcessImpression J E cfg d w1).2.ext).1
      generalize pendingFileName (E.unixNano (tryProcessImpression J E cfg d w1).2.ext).1
        = name at hs1 hs3 hname
      rw [hs3] at hg ⊢
      have hwn2 : writtenNames ((w.trace ++ .post (verifyURL cfg) d rv :: extra) ++
          [.write name (J.marshalIndent d) true]) = writtenNames w.trace ++ [name] := by
        rw [writtenNames_append, hwn]
        simp [writtenNames]
      have hh2 : handedEvents cfg ((w.trace ++ .post (verifyURL cfg) d rv :: extra) ++
          [.write name (J.marshalIndent d) true]) = handedEvents cfg w.trace ++ [d] := by
        rw [handedEvents_append, hh]
        simp [handedEvents]
      have hnd := hg.2.1
      rw [hwn2, ← List.append_assoc] at hnd
      have hfresh : ∀ e ∈ w.pending, e.name ≠ name := by
        intro e he hen
        have hmem : name ∈ names0 ++ writtenNames w.trace := by
          rw [← hen]
          exact List.mem_append.2 (ha2 e he)
        exact (List.nodup_append.1 hnd).2.2 hmem (List.mem_singleton_self _) 
      rw [hs1, writeFile_fresh _ _ _ hfresh]
      refine ⟨?_, ?_, ?_⟩
      · intro d2 hd2
        rw [hh2] at hd2
        rcases List.mem_append.1 hd2 with hd2 | hd2
        · rcases ha1 d2 hd2 with h | h
          · left
            rw [List.append_assoc]
            exact Delivered_mono J cfg _ _ d2 h
          · right
            obtain ⟨f, hf, rest⟩ := h
            exact ⟨f, List.mem_append_left _ hf, rest⟩
        · simp only [List.mem_singleton] at hd2
          subst hd2
          right
          refine ⟨⟨name, false, J.marshalIndent d2⟩, by simp, rfl, ?_, ?_⟩
          · exact hname
          · exact hg.2.2 d2 (by rw [hh2]; simp)
      · intro f hf
        rw [hwn2]
        rcases List.mem_append.1 hf with hf | hf
        · rcases ha2 f hf with h | h
          · exact Or.inl h
          · exact Or.inr (List.mem_append_left _ h)
        · simp only [List.mem_singleton] at hf
          subst hf
          exact Or.inr (by simp)
      · rw [List.map_append, List.nodup_append]
        refine ⟨ha3, by simp, ?_⟩
        intro x hx1 hx2
        simp only [List.map_cons, List.map_nil, List.mem_singleton] at hx2
        obtain ⟨e, he, rfl⟩ := List.mem_map.1 hx1
        exact hfresh e he hx2

lemma Queued_removeFile (J : Json) (P : List DirEntry) (name : String) (d : PrintData)
    (hnd : (P.map DirEntry.name).Nodup) (g : DirEntry) (hg : g ∈ P) (hgn : g.name = name)
    (hgd : J.unmarshalPrintData g.content ≠ some d) (h : Queued J P d) :
    Queued J (removeFile P name) d := by
  obtain ⟨f, hf, h1, h2, h3⟩ := h
  refine ⟨f, (mem_removeFile _ _ _).2 ⟨hf, ?_⟩, h1, h2, h3⟩
  intro hfn
  have : f = g := List.inj_on_of_nodup_map hnd hf hg (hfn.trans hgn.symm)
  subst this
  exact hgd h3

lemma processPendingFile_noLoss (J : Json) (E : Env σ) (cfg : Config)
    (names0 : List String) (w : World σ) (file : DirEntry) :
    (∃ X, (processPendingFile J E cfg w file).trace = w.trace ++ X) ∧
    (GoodTrace J cfg names0 (processPendingFile J E cfg w file).trace →
      NoLoss J cfg names0 w.trace w.pending →
      NoLoss J cfg names0 (processPendingFile J E cfg w file).trace
        (processPendingFile J E cfg w file).pending) := by
  unfold processPendingFile
  split_ifs with hskip
  · exact ⟨⟨[], by simp⟩, fun _ h => h⟩
  · have hsuf : HasSuffix file.name ".json" = true := by
      have : file.isDir = false ∧ HasSuffix file.name ".json" = true := by
        simpa using hskip
      exact this.2
    cases hr : readFile w.pending file.name with
    | none => exact ⟨⟨[], by simp⟩, fun _ h => h⟩
    | some c =>
      obtain ⟨g, hg, hgn, hgd, hgc⟩ := readFile_some _ _ _ hr
      cases hu : J.unmarshalPrintData c with
      | none =>
        simp only [hu]
        refine ⟨⟨[], by simp⟩, ?_⟩
        rintro - ⟨ha1, ha2, ha3⟩
        refine ⟨?_, ?_, ?_⟩
        · intro d hd
          rcases ha1 d hd with h | h
          · exact Or.inl h
          · exact Or.inr (Queued_removeFile J _ _ d ha3 g hg hgn
              (by rw [hgc, hu]; simp) h)
        · intro f hf
          exact ha2 f ((mem_removeFile _ _ _).1 hf).1
        · exact ha3.sublist ((removeFile_sublist _ _).map _)
      | some d =>
        obtain ⟨rv, extra, ht, hp, -, hx, hdel⟩ := tryProcessImpression_spec J E cfg d w
        have hh : handedEvents cfg (w.trace ++ .post (verifyURL cfg) d rv :: extra)
            = handedEvents cfg w.trace ++ [d] := by
          rw [handedEvents_append, handedEvents_try cfg d rv extra hx]
        have hwn : writtenNames (w.trace ++ .post (verifyURL cfg) d rv :: extra)
            = writtenNames w.trace := by
          rw [writtenNames_append, writtenNames_try cfg d rv extra hx, List.append_nil]
        simp only [hu]
        by_cases hok : (tryProcessImpression J E cfg d w).1 = true
        · simp only [hok, if_true]
          refine ⟨⟨_, ht⟩, ?_⟩
          rw [ht, hp]
          rintro - ⟨ha1, ha2, ha3⟩
          have hdl := Delivered_try J cfg w.trace d rv extra (hdel hok)
          refine ⟨?_, ?_, ?_⟩
          · intro d2 hd2
            rw [hh] at hd2
            rcases List.mem_append.1 hd2 with hd2 | hd2
            · rcases ha1 d2 hd2 with h | h
              · exact Or.inl (Delivered_mono J cfg _ _ d2 h)
              · by_cases hdd : d2 = d
                · subst hdd; exact Or.inl hdl
                · exact Or.inr (Queued_removeFile J _ _ d2 ha3 g hg hgn
                    (by rw [hgc, hu]; simpa using fun h => hdd h.symm) h)
            · simp only [List.mem_singleton] at hd2
              subst hd2
              exact Or.inl hdl
          · intro f hf
            rw [hwn]
            exact ha2 f ((mem_removeFile _ _ _).1 hf).1
          · exact ha3.sublist ((removeFile_sublist _ _).map _)
        · simp only [hok, Bool.false_eq_true, if_false]
          refine ⟨⟨_, ht⟩, ?_⟩
          rw [ht, hp]
          rintro - ⟨ha1, ha2, ha3⟩
          refine ⟨?_, ?_, ha3⟩
          · intro d2 hd2
            rw [hh] at hd2
            rcases List.mem_append.1 hd2 with hd2 | hd2
            · rcases ha1 d2 hd2 with h | h
              · exact Or.inl (Delivered_mono J cfg _ _ d2 h)
              · exact Or.inr h
            · simp only [List.mem_singleton] at hd2
              subst hd2
              exact Or.inr ⟨g, hg, hgd, by rw [hgn]; exact hsuf, by rw [hgc, hu]⟩
          · intro f hf
            rw [hwn]
            exact ha2 f hf

lemma foldl_noLoss {α : Type} (J : Json) (cfg : Config) (names0 : List String)
    (step : World σ → α → World σ)
    (hstep : ∀ w a, (∃ X, (step w a).trace = w.trace ++ X) ∧
      (GoodTrace J cfg names0 (step w a).trace → NoLoss J cfg names0 w.trace w.pending →
        NoLoss J cfg names0 (step w a).trace (step w a).pending)) (l : List α) :
    ∀ w : World σ, (∃ X, (l.foldl step w).trace = w.trace ++ X) ∧
      (GoodTrace J cfg names0 (l.foldl step w).trace →
        NoLoss J cfg names0 w.trace w.pending →
        NoLoss J cfg names0 (l.foldl step w).trace (l.foldl step w).pending) := by
  induction l with
  | nil => intro w; exact ⟨⟨[], by simp⟩, fun _ h => h⟩
  | cons a l ih =>
    intro w
    obtain ⟨⟨X1, h1⟩, h2⟩ := hstep w a
    obtain ⟨⟨X2, h3⟩, h4⟩ := ih (step w a)
    simp only [List.foldl_cons]
    refine ⟨⟨X1 ++ X2, by rw [h3, h1, List.append_assoc]⟩, ?_⟩
    intro hg hinv
    refine h4 hg (h2 ?_ hinv)
    rw [h3] at hg
    exact GoodTrace_prefix J cfg names0 _ X2 hg

lemma processRead_noLoss (J : Json) (E : Env σ) (cfg : Config) (names0 : List String)
    (w : World σ) (r : ReadResult) :
    (∃ X, (processRead J E cfg w r).trace = w.trace ++ X) ∧
    (GoodTrace J cfg names0 (processRead J E cfg w r).trace →
      NoLoss J cfg names0 w.trace w.pending →
      NoLoss J cfg names0 (processRead J E cfg w r).trace
        (processRead J E cfg w r).pending) := by
  cases r with
  | error => exact ⟨⟨[], by simp [processRead]⟩, fun _ h => h⟩
  | record fields => exact processRecord_noLoss J E cfg names0 w fields

lemma runOp_noLoss (J : Json) (F : FileLib) (E : Env σ) (cfg : Config)
    (names0 : List String) (w : World σ) (op : Op) :
    (∃ X, (runOp J F E cfg w op).trace = w.trace ++ X) ∧
    (GoodTrace J cfg names0 (runOp J F E cfg w op).trace →
      NoLoss J cfg names0 w.trace w.pending →
      NoLoss J cfg names0 (runOp J F E cfg w op).trace (runOp J F E cfg w op).pending) := by
  cases op with
  | drain =>
    exact foldl_noLoss J cfg names0 _ (processPendingFile_noLoss J E cfg names0) w.pending w
  | tail =>
    obtain ⟨w1, h1, h2, -, h4, h5⟩ := processPapercutLogs_rows_eq J F E cfg w
    have := foldl_noLoss J cfg names0 _ (processRead_noLoss J E cfg names0)
      (tailRows F E cfg w) w1
    simp only [runOp]
    rw [h4, h5]
    rw [h1, h2] at this
    exact this

/-- C2: no loss.  Start from any world with an empty trace and run any sequence of
tailing passes and drains.  If every pending-file write of the run succeeded, the file
names written are distinct from each other and from the names first in the pending
directory (themselves distinct), and the events handed to delivery are read back from
their JSON form, then after every prefix of the sequence every event that was handed to
delivery has been delivered to the collector (a send answered with success, or a verify
answered "exists") or is present as a record of the pending queue; and the event built
from an accepted row is handed to delivery when the row is processed. -/
theorem no_loss (J : Json) (F : FileLib) (E : Env σ) (cfg : Config) (ops : List Op)
    (w0 : World σ) (h0 : w0.trace = [])
    (hwrite : ∀ name data ok,
      IOEvent.write name data ok ∈ (runOps J F E cfg ops w0).trace → ok = true)
    (hnames : (w0.pending.map DirEntry.name ++
      writtenNames (runOps J F E cfg ops w0).trace).Nodup)
    (hjson : ∀ d ∈ handedEvents cfg (runOps J F E cfg ops w0).trace,
      J.unmarshalPrintData (J.marshalIndent d) = some d) :
    (∀ k : Nat, ∀ d ∈ handedEvents cfg (runOps J F E cfg (ops.take k) w0).trace,
      Delivered J cfg (runOps J F E cfg (ops.take k) w0).trace d ∨
      Queued J (runOps J F E cfg (ops.take k) w0).pending d) ∧
    (∀ (w : World σ) (record : List String) (t : Time), acceptRecord record = some t →
      ∃ ip mac, mkPrintData cfg record t ip mac
        ∈ handedEvents cfg (processRecord J E cfg w record).trace) := by
  refine ⟨?_, ?_⟩
  swap
  · intro w record t ha
    obtain ⟨extra, ip, mac, h1, h2⟩ := processRecord_handed J E cfg w record t ha
    refine ⟨ip, mac, ?_⟩
    rw [h1, handedEvents_append, h2]
    simp
  intro k
  have hfin : GoodTrace J cfg (w0.pending.map DirEntry.name)
      (runOps J F E cfg ops w0).trace := ⟨hwrite, hnames, hjson⟩
  have hsplit : runOps J F E cfg ops w0
      = (ops.drop k).foldl (runOp J F E cfg) (runOps J F E cfg (ops.take k) w0) := by
    simp only [runOps, ← List.foldl_append, List.take_append_drop]
  obtain ⟨⟨X, hX⟩, -⟩ := foldl_noLoss J cfg (w0.pending.map DirEntry.name) _
    (runOp_noLoss J F E cfg (w0.pending.map DirEntry.name)) (ops.drop k)
    (runOps J F E cfg (ops.take k) w0)
  rw [← hsplit] at hX
  rw [hX] at hfin
  have hk := GoodTrace_prefix J cfg _ _ X hfin
  have hinit : NoLoss J cfg (w0.pending.map DirEntry.name) w0.trace w0.pending := by
    refine ⟨?_, ?_, (List.nodup_append.1 hnames).1⟩
    · intro d hd
      rw [h0] at hd
      simp [handedEvents] at hd
    · intro f hf
      exact Or.inl (List.mem_map_of_mem _ hf)
  exact ((foldl_noLoss J cfg (w0.pending.map DirEntry.name) _
    (runOp_noLoss J F E cfg (w0.pending.map DirEntry.name)) (ops.take k) w0).2 hk hinit).1

lemma logRun_trace :
    (runOps jsonToy fileLibToy (logCollector 500 5) cfgScenario [.tail, .drain]
        emptyWorld).trace =
      [.post (verifyURL cfgScenario) eventScenario (.response 200 (some bodyFalse)),
        .post (sendURL cfgScenario) eventScenario (.response 500 (some "")),
        .write "5.json" "scenario" true,
        .post (verifyURL cfgScenario) eventScenario (.response 200 (some bodyFalse)),
        .post (sendURL cfgScenario) eventScenario (.response 500 (some ""))] := by
  decide

/-- C2, witness: a tailing pass over a log with the scenario row against a collector
that refuses the ingest, then a drain: the write succeeds under the name 5.json, and the
event, twice refused, is in the queue. -/
theorem no_loss_witness :
    emptyWorld.trace = [] ∧
    (∀ name data ok, IOEvent.write name data ok ∈
      (runOps jsonToy fileLibToy (logCollector 500 5) cfgScenario [.tail, .drain]
        emptyWorld).trace → ok = true) ∧
    (emptyWorld.pending.map DirEntry.name ++ writtenNames
      (runOps jsonToy fileLibToy (logCollector 500 5) cfgScenario [.tail, .drain]
        emptyWorld).trace).Nodup ∧
    (∀ d ∈ handedEvents cfgScenario
      (runOps jsonToy fileLibToy (logCollector 500 5) cfgScenario [.tail, .drain]
        emptyWorld).trace,
      jsonToy.unmarshalPrintData (jsonToy.marshalIndent d) = some d) ∧
    (∀ d ∈ handedEvents cfgScenario
      (runOps jsonToy fileLibToy (logCollector 500 5) cfgScenario
        ([Op.tail, Op.drain].take 2) emptyWorld).trace,
      Delivered jsonToy cfgScenario
        (runOps jsonToy fileLibToy (logCollector 500 5) cfgScenario
          ([Op.tail, Op.drain].take 2) emptyWorld).trace d ∨
      Queued jsonToy
        (runOps jsonToy fileLibToy (logCollector 500 5) cfgScenario
          ([Op.tail, Op.drain].take 2) emptyWorld).pending d) := by
  have hw : ∀ name data ok, IOEvent.write name data ok ∈
      (runOps jsonToy fileLibToy (logCollector 500 5) cfgScenario [.tail, .drain]
        emptyWorld).trace → ok = true := by
    intro name data ok h
    rw [logRun_trace] at h
    simp at h
    exact h.2.2
  have hn : (emptyWorld.pending.map DirEntry.name ++ writtenNames
      (runOps jsonToy fileLibToy (logCollector 500 5) cfgScenario [.tail, .drain]
        emptyWorld).trace).Nodup := by
    rw [logRun_trace]; decide
  have hj : ∀ d ∈ handedEvents cfgScenario
      (runOps jsonToy fileLibToy (logCollector 500 5) cfgScenario [.tail, .drain]
        emptyWorld).trace,
      jsonToy.unmarshalPrintData (jsonToy.marshalIndent d) = some d := by
    intro d hd
    have hh : handedEvents cfgScenario
        (runOps jsonToy fileLibToy (logCollector 500 5) cfgScenario [.tail, .drain]
          emptyWorld).trace = [eventScenario, eventScenario] := by decide
    rw [hh] at hd
    have hd2 : d = eventScenario := by simpa using hd
    subst hd2
    decide
  exact ⟨rfl, hw, hn, hj,
    (no_loss jsonToy fileLibToy (logCollector 500 5) cfgScenario [.tail, .drain] emptyWorld
      rfl hw hn hj).1 2⟩

/-! ## Trimmed fields -/

lemma TrimSpace_noLeading (s : String) : noLeadingSpace (TrimSpace s) = true := by
  simp only [noLeadingSpace, TrimSpace]
  set l1 := s.data.dropWhile isSpace with hl1
  have hsplit : l1 = (l1.reverse.dropWhile isSpace).reverse
      ++ (l1.reverse.takeWhile isSpace).reverse := by
    rw [← List.reverse_append, List.takeWhile_append_dropWhile, List.reverse_reverse]
  cases hr : (l1.reverse.dropWhile isSpace).reverse with
  | nil => simp
  | cons c rest =>
    simp only [List.head?_cons]
    have h1 : l1.head? = some c := by
      rw [hsplit, hr]; simp
    have h2 := List.head?_dropWhile_not isSpace s.data
    rw [← hl1, h1] at h2
    simpa using h2

lemma TrimSpace_noTrailing (s : String) : noTrailingSpace (TrimSpace s) = true := by
  simp only [noTrailingSpace, TrimSpace, List.getLast?_reverse]
  have h2 := List.head?_dropWhile_not isSpace (s.data.dropWhile isSpace).reverse
  cases hr : ((s.data.dropWhile isSpace).reverse.dropWhile isSpace).head? with
  | none => simp
  | some c =>
    rw [hr] at h2
    simpa using h2

lemma extScan_suffix (xs acc : List Char) :
    extScan xs acc = [] ∨ ∃ pre, xs.reverse ++ acc = pre ++ extScan xs acc := by
  induction xs generalizing acc with
  | nil => simp [extScan]
  | cons x xs ih =>
    by_cases hp : IsPathSeparator x = true
    · simp [extScan, hp]
    · by_cases hd : x = '.'
      · right
        refine ⟨xs.reverse, ?_⟩
        subst hd
        simp [extScan, IsPathSeparator]
      · rcases ih (x :: acc) with h | ⟨pre, h⟩
        · left; simp [extScan, hp, hd, h]
        · right
          refine ⟨pre, ?_⟩
          simp only [extScan, hp, hd, if_false, Bool.false_eq_true]
          rw [← h]
          simp

lemma tipo_shape (name : String) :
    (TrimPrefix (Ext name) ".").data = [] ∨
      ∃ pre, name.data = pre ++ '.' :: (TrimPrefix (Ext name) ".").data := by
  simp only [Ext]
  rcases extScan_shape name.data.reverse [] with h | ⟨ys, h1, -⟩
  · left; rw [h]; simp [TrimPrefix]
  · rcases extScan_suffix name.data.reverse [] with h | ⟨pre, h⟩
    · rw [h] at h1; simp at h1
    · right
      rw [h1] at h
      rw [h1, TrimPrefix_dot_cons]
      exact ⟨pre, by simpa using h⟩

lemma tipo_noTrailing (name : String) (hn : noTrailingSpace name = true) :
    noTrailingSpace (TrimPrefix (Ext name) ".") = true := by
  rcases tipo_shape name with h | ⟨pre, h⟩
  · simp [noTrailingSpace, h]
  · cases hy : (TrimPrefix (Ext name) ".").data with
    | nil => simp [noTrailingSpace, hy]
    | cons c rest =>
      have hl : name.data.getLast? = (c :: rest).getLast? := by
        rw [h, hy]
        have : pre ++ '.' :: c :: rest = (pre ++ ['.']) ++ (c :: rest) := by simp
        rw [this, List.getLast?_append_of_ne_nil _ (by simp)]
      simp only [noTrailingSpace, hl] at hn
      simpa [noTrailingSpace, hy] using hn

lemma tipo_noLeading (name : String) :
    noLeadingSpace (TrimPrefix (Ext name) ".") = true ∨
      ∃ pre c rest, name.data = pre ++ '.' :: c :: rest ∧ isSpace c = true := by
  cases hy : (TrimPrefix (Ext name) ".").data with
  | nil => left; simp [noLeadingSpace, hy]
  | cons c rest =>
    by_cases hc : isSpace c = true
    · right
      rcases tipo_shape name with h | ⟨pre, h⟩
      · rw [hy] at h; simp at h
      · rw [hy] at h
        exact ⟨pre, c, rest, h, hc⟩
    · left
      simp [noLeadingSpace, hy, hc]

/-- C11 (amended): for every accepted row, the user, printer name, document name,
client host name, paper size, colour mode and size label of the event have no leading
and no trailing white space; the document type has no trailing white space, and has
leading white space only when the document name holds a dot followed at once by white
space; the sector is the configured sector as it is, so it is free of surrounding white
space exactly when the configured value is. -/
theorem mkPrintData_trimmed (cfg : Config) (record : List String) (t : Time)
    (ip mac : String) (_h : acceptRecord record = some t) :
    (∀ s ∈ [(mkPrintData cfg record t ip mac).Usuario,
        (mkPrintData cfg record t ip mac).Impressora,
        (mkPrintData cfg record t ip mac).NomeArquivo,
        (mkPrintData cfg record t ip mac).NomePC,
        (mkPrintData cfg record t ip mac).TipoPage,
        (mkPrintData cfg record t ip mac).Cor,
        (mkPrintData cfg record t ip mac).Tamanho],
      noLeadingSpace s = true ∧ noTrailingSpace s = true) ∧
    noTrailingSpace (mkPrintData cfg record t ip mac).Tipo = true ∧
    (noLeadingSpace (mkPrintData cfg record t ip mac).Tipo = true ∨
      ∃ pre c rest, (mkPrintData cfg record t ip mac).NomeArquivo.data
        = pre ++ '.' :: c :: rest ∧ isSpace c = true) ∧
    (mkPrintData cfg record t ip mac).Setor = cfg.Setor ∧
    noLeadingSpace (mkPrintData cfg record t ip mac).Setor = noLeadingSpace cfg.Setor ∧
    noTrailingSpace (mkPrintData cfg record t ip mac).Setor = noTrailingSpace cfg.Setor := by
  refine ⟨?_, ?_, ?_, rfl, rfl, rfl⟩
  · intro s hs
    simp only [mkPrintData, List.mem_cons, List.mem_singleton, List.not_mem_nil,
      or_false] at hs
    rcases hs with rfl | rfl | rfl | rfl | rfl | rfl | rfl <;>
      exact ⟨TrimSpace_noLeading _, TrimSpace_noTrailing _⟩
  · exact tipo_noTrailing _ (TrimSpace_noTrailing _)
  · exact tipo_noLeading _

/-- C11, witness: the scenario row is accepted; its user has no leading white space. -/
theorem mkPrintData_trimmed_witness :
    acceptRecord rowScenario = some ⟨2024, 1, 5, 9, 0, 0⟩ ∧
    noTrailingSpace (mkPrintData cfgScenario rowScenario ⟨2024, 1, 5, 9, 0, 0⟩ "" "").Tipo
      = true :=
  ⟨by decide,
    (mkPrintData_trimmed cfgScenario rowScenario ⟨2024, 1, 5, 9, 0, 0⟩ "" ""
      (by decide)).2.1⟩

/-- C11 as stated fails: with the sector configured as " Finance " and the document
"report. pdf", the accepted row `rowDotBlank` gives an event whose sector begins and
ends with a blank and whose type " pdf" begins with a blank. -/
theorem mkPrintData_trimmed_counterexample :
    acceptRecord rowDotBlank = some ⟨2024, 1, 5, 9, 0, 0⟩ ∧
    (mkPrintData cfgPadded rowDotBlank ⟨2024, 1, 5, 9, 0, 0⟩ "" "").Setor = " Finance " ∧
    noLeadingSpace (mkPrintData cfgPadded rowDotBlank ⟨2024, 1, 5, 9, 0, 0⟩ "" "").Setor
      = false ∧
    noTrailingSpace (mkPrintData cfgPadded rowDotBlank ⟨2024, 1, 5, 9, 0, 0⟩ "" "").Setor
      = false ∧
    (mkPrintData cfgPadded rowDotBlank ⟨2024, 1, 5, 9, 0, 0⟩ "" "").Tipo = " pdf" ∧
    noLeadingSpace (mkPrintData cfgPadded rowDotBlank ⟨2024, 1, 5, 9, 0, 0⟩ "" "").Tipo
      = false := by
  decide

/-! ## Service loop -/

lemma serviceLoop_phases (J : Json) (F : FileLib) (E : Env σ) (cfg : Config)
    (signals : List Signal) :
    ∀ w : World σ, serviceLoop J F E cfg signals w
      = runOps J F E cfg (loopPhases signals) w := by
  induction signals with
  | nil => intro w; rfl
  | cons s rest ih =>
    intro w
    cases s with
    | tick =>
      simp only [serviceLoop, loopPhases, ih]
      rfl
    | stop => rfl
    | shutdown => rfl
    | interrogate => simp only [serviceLoop, loopPhases, ih]
    | other => simp only [serviceLoop, loopPhases, ih]

/-- C12 (amended): at startup the pending-queue drain runs first and the tailing of
today's log after it; on every tick of the polling loop the tailing runs first and the
drain after it, so that in the trace of a tick everything the tailing pass does comes
before everything the drain does; Execute as a whole runs drain, tail, and then tail,
drain for each tick received before a stop or shutdown request. -/
theorem Execute_phases (J : Json) (F : FileLib) (E : Env σ) (cfg : Config)
    (signals : List Signal) (w : World σ) :
    startupCycle J F E cfg w = runOps J F E cfg [.drain, .tail] w ∧
    tickCycle J F E cfg w = runOps J F E cfg [.tail, .drain] w ∧
    Execute J F E cfg signals w
      = runOps J F E cfg (.drain :: .tail :: loopPhases signals) w ∧
    (∃ X Y, (processPapercutLogs J F E cfg w).2.trace = w.trace ++ X ∧
      (tickCycle J F E cfg w).trace = w.trace ++ X ++ Y) := by
  refine ⟨rfl, rfl, ?_, ?_⟩
  · simp only [Execute, serviceLoop_phases]
    rfl
  · obtain ⟨w1, h1, -, -, h4, -⟩ := processPapercutLogs_rows_eq J F E cfg w
    obtain ⟨X, h5, -⟩ := processRows_handed J E cfg (tailRows F E cfg w) w1
    obtain ⟨Y, h6, -⟩ := foldl_trace J E cfg (processPapercutLogs J F E cfg w).2.pending
      (processPapercutLogs J F E cfg w).2
    refine ⟨X, Y, ?_, ?_⟩
    · rw [h4, h5, h1]
    · simp only [tickCycle, processPendingImpressions]
      rw [h6, h4, h5, h1]

/-- C12 as stated fails: against a collector that refuses the ingest, a tick over a log
with the scenario row tails first, queues the refused event and retries it in the drain
of the same tick (five trace entries); with the drain first, as the claim has it, the
event would be tried once (three entries). -/
theorem Execute_phases_counterexample :
    (tickCycle jsonToy fileLibToy (logCollector 500 5) cfgScenario emptyWorld).trace =
      [.post (verifyURL cfgScenario) eventScenario (.response 200 (some bodyFalse)),
        .post (sendURL cfgScenario) eventScenario (.response 500 (some "")),
        .write "5.json" "scenario" true,
        .post (verifyURL cfgScenario) eventScenario (.response 200 (some bodyFalse)),
        .post (sendURL cfgScenario) eventScenario (.response 500 (some ""))] ∧
    (tickCycleAsSpecified jsonToy fileLibToy (logCollector 500 5) cfgScenario
        emptyWorld).trace =
      [.post (verifyURL cfgScenario) eventScenario (.response 200 (some bodyFalse)),
        .post (sendURL cfgScenario) eventScenario (.response 500 (some "")),
        .write "5.json" "scenario" true] ∧
    (tickCycle jsonToy fileLibToy (logCollector 500 5) cfgScenario emptyWorld).trace ≠
      (tickCycleAsSpecified jsonToy fileLibToy (logCollector 500 5) cfgScenario
        emptyWorld).trace := by
  decide

/-! ## Offsets and the header -/

lemma processRecord_offsets (J : Json) (E : Env σ) (cfg : Config) (w : World σ)
    (record : List String) :
    (processRecord J E cfg w record).lastReadOffsets = w.lastReadOffsets := by
  unfold processRecord
  cases acceptRecord record with
  | none => rfl
  | some t =>
    simp only
    obtain ⟨rv, extra, -, -, ho, -⟩ := tryProcessImpression_spec J E cfg
      (mkPrintData cfg record t (getNetworkInfo E w).1.1 (getNetworkInfo E w).1.2)
      (getNetworkInfo E w).2
    split_ifs
    · rw [ho]; rfl
    · show (tryProcessImpression J E cfg _ _).2.lastReadOffsets = _
      rw [ho]; rfl

lemma processRows_offsets (J : Json) (E : Env σ) (cfg : Config) (rows : List ReadResult) :
    ∀ w : World σ, (processRows J E cfg rows w).lastReadOffsets = w.lastReadOffsets := by
  induction rows with
  | nil => intro w; rfl
  | cons r rows ih =>
    intro w
    simp only [processRows, List.foldl_cons] at ih ⊢
    rw [ih]
    cases r with
    | error => rfl
    | record fields => exact processRecord_offsets J E cfg w fields

lemma processPendingFile_offsets (J : Json) (E : Env σ) (cfg : Config) (w : World σ)
    (f : DirEntry) :
    (processPendingFile J E cfg w f).lastReadOffsets = w.lastReadOffsets := by
  unfold processPendingFile
  split_ifs
  · rfl
  · cases hr : readFile w.pending f.name with
    | none => rfl
    | some c =>
      cases hu : J.unmarshalPrintData c with
      | none => simp only [hu]
      | some d =>
        obtain ⟨rv, extra, -, -, ho, -⟩ := tryProcessImpression_spec J E cfg d w
        simp only [hu]
        split_ifs <;> simp [ho]

lemma processPendingImpressions_offsets (J : Json) (E : Env σ) (cfg : Config)
    (w : World σ) :
    (processPendingImpressions J E cfg w).lastReadOffsets = w.lastReadOffsets := by
  unfold processPendingImpressions
  generalize w.pending = l
  induction l generalizing w with
  | nil => rfl
  | cons f l ih =>
    simp only [List.foldl_cons]
    rw [ih, processPendingFile_offsets]

lemma pass_opened (J : Json) (F : FileLib) (E : Env σ) (cfg : Config) (w : World σ)
    (content : List UInt8) (hopen : todayLog F E cfg w = .opened content) :
    processPapercutLogs J F E cfg w =
      match skipHeader (storedOffset w (todayPath F E cfg w))
        (F.csvReadAll (content.drop (storedOffset w (todayPath F E cfg w)))) with
      | none => (some .headerFailed, afterOpen F E cfg w)
      | some rows =>
        (none, { processRows J E cfg rows (afterOpen F E cfg w) with
          lastReadOffsets := Function.update w.lastReadOffsets (todayPath F E cfg w)
            (some (max (storedOffset w (todayPath F E cfg w)) content.length)) }) := by
  simp only [todayLog, todayPath] at hopen
  simp only [processPapercutLogs, hopen, storedOffset, todayPath, afterOpen]
  cases skipHeader ((w.lastReadOffsets (getPapercutLogPath F cfg.PapercutLogDir
      (E.today w.ext).1)).getD 0)
    (F.csvReadAll (List.drop ((w.lastReadOffsets (getPapercutLogPath F
      cfg.PapercutLogDir (E.today w.ext).1)).getD 0) content)) with
  | none => rfl
  | some rows =>
    simp only [processRows_offsets]

lemma tailRows_opened (F : FileLib) (E : Env σ) (cfg : Config) (w : World σ)
    (content : List UInt8) (hopen : todayLog F E cfg w = .opened content) :
    tailRows F E cfg w =
      (skipHeader (storedOffset w (todayPath F E cfg w))
        (F.csvReadAll (content.drop (storedOffset w (todayPath F E cfg w))))).getD [] := by
  simp only [todayLog, todayPath] at hopen
  simp only [tailRows, hopen, storedOffset, todayPath]

lemma pass_offsets_mono (J : Json) (F : FileLib) (E : Env σ) (cfg : Config) (w : World σ)
    (p : String) :
    storedOffset w p ≤ storedOffset (processPapercutLogs J F E cfg w).2 p := by
  cases ho : todayLog F E cfg w with
  | notExist =>
    simp only [todayLog, todayPath] at ho
    simp [processPapercutLogs, ho, storedOffset]
  | failed =>
    simp only [todayLog, todayPath] at ho
    simp [processPapercutLogs, ho, storedOffset]
  | opened content =>
    rw [pass_opened J F E cfg w content ho]
    cases skipHeader (storedOffset w (todayPath F E cfg w))
      (F.csvReadAll (content.drop (storedOffset w (todayPath F E cfg w)))) with
    | none => simp [afterOpen, storedOffset]
    | some rows =>
      simp only [storedOffset]
      by_cases hp : p = todayPath F E cfg w
      · subst hp
        simp
      · simp [Function.update_noteq hp]

lemma runOp_offsets_mono (J : Json) (F : FileLib) (E : Env σ) (cfg : Config) (w : World σ)
    (op : Op) (p : String) :
    storedOffset w p ≤ storedOffset (runOp J F E cfg w op) p := by
  cases op with
  | tail => exact pass_offsets_mono J F E cfg w p
  | drain =>
    simp only [runOp, storedOffset, processPendingImpressions_offsets]
    exact le_refl _

lemma runOps_offsets_mono (J : Json) (F : FileLib) (E : Env σ) (cfg : Config)
    (ops : List Op) (p : String) :
    ∀ w : World σ, storedOffset w p ≤ storedOffset (runOps J F E cfg ops w) p := by
  induction ops with
  | nil => intro w; exact le_refl _
  | cons op ops ih =>
    intro w
    exact le_trans (runOp_offsets_mono J F E cfg w op p) (ih (runOp J F E cfg w op))

/-- C13: header skip once.  In a pass over an opened log that starts at stored offset 0,
when the reader yields a first record, exactly that one row is discarded and the row
loop runs over the rows after it; nothing is discarded when there is nothing to read,
and a failed first read aborts the pass with no row processed.  A pass that starts at a
nonzero stored offset discards nothing: the row loop runs over everything the reader
yields from that offset.  Once a pass has discarded the header, the stored offset of
that path is positive after any further passes and drains, so no later pass over the
file discards a row. -/
theorem header_skip_once (J : Json) (F : FileLib) (E : Env σ) (cfg : Config)
    (w : World σ) (content : List UInt8)
    (hopen : todayLog F E cfg w = .opened content) :
    (storedOffset w (todayPath F E cfg w) = 0 →
      ∀ hdr rest, F.csvReadAll content = .record hdr :: rest →
        tailRows F E cfg w = rest ∧
        (processPapercutLogs J F E cfg w).1 = none ∧
        (processPapercutLogs J F E cfg w).2.trace
          = (processRows J E cfg rest (afterOpen F E cfg w)).trace ∧
        (processPapercutLogs J F E cfg w).2.pending
          = (processRows J E cfg rest (afterOpen F E cfg w)).pending) ∧
    (storedOffset w (todayPath F E cfg w) = 0 → F.csvReadAll content = [] →
      tailRows F E cfg w = [] ∧ (processPapercutLogs J F E cfg w).1 = none) ∧
    (storedOffset w (todayPath F E cfg w) = 0 →
      ∀ rest, F.csvReadAll content = .error :: rest →
        tailRows F E cfg w = [] ∧
        processPapercutLogs J F E cfg w = (some .headerFailed, afterOpen F E cfg w)) ∧
    (storedOffset w (todayPath F E cfg w) ≠ 0 →
      tailRows F E cfg w
        = F.csvReadAll (content.drop (storedOffset w (todayPath F E cfg w))) ∧
      (processPapercutLogs J F E cfg w).1 = none ∧
      (processPapercutLogs J F E cfg w).2.trace
        = (processRows J E cfg
            (F.csvReadAll (content.drop (storedOffset w (todayPath F E cfg w))))
            (afterOpen F E cfg w)).trace ∧
      (processPapercutLogs J F E cfg w).2.pending
        = (processRows J E cfg
            (F.csvReadAll (content.drop (storedOffset w (todayPath F E cfg w))))
            (afterOpen F E cfg w)).pending) ∧
    (F.csvReadAll [] = [] → storedOffset w (todayPath F E cfg w) = 0 →
      ∀ hdr rest, F.csvReadAll content = .record hdr :: rest →
        ∀ ops : List Op,
          0 < storedOffset (runOps J F E cfg ops (processPapercutLogs J F E cfg w).2)
            (todayPath F E cfg w)) := by
  have hp := pass_opened J F E cfg w content hopen
  have ht := tailRows_opened F E cfg w content hopen
  refine ⟨?_, ?_, ?_, ?_, ?_⟩
  · intro h0 hdr rest hr
    rw [h0, List.drop_zero, hr] at hp ht
    simp only [skipHeader, if_true] at hp ht
    rw [hp]
    exact ⟨by simpa using ht, rfl, rfl, rfl⟩
  · intro h0 hr
    rw [h0, List.drop_zero, hr] at hp ht
    simp only [skipHeader, if_true] at hp ht
    rw [hp]
    exact ⟨by simpa using ht, rfl⟩
  · intro h0 rest hr
    rw [h0, List.drop_zero, hr] at hp ht
    simp only [skipHeader, if_true] at hp ht
    exact ⟨by simpa using ht, hp⟩
  · intro h0
    simp only [skipHeader, h0, if_false] at hp ht
    rw [hp]
    exact ⟨by simpa using ht, rfl, rfl, rfl⟩
  · intro hempty h0 hdr rest hr ops
    have hne : content ≠ [] := by
      intro hc
      rw [hc, hempty] at hr
      exact absurd hr (by simp)
    have hlen : 0 < content.length := List.length_pos.2 hne
    refine lt_of_lt_of_le ?_ (runOps_offsets_mono J F E cfg ops (todayPath F E cfg w) _)
    rw [h0, List.drop_zero, hr] at hp
    simp only [skipHeader, if_true] at hp
    rw [hp]
    simp [storedOffset, hlen]

/-- C13, witness: the first pass over the four-byte log of `logCollector` starts at
offset 0 and discards the header row. -/
theorem header_skip_once_witness :
    todayLog fileLibToy (logCollector 500 5) cfgScenario emptyWorld = .opened logBytes ∧
    tailRows fileLibToy (logCollector 500 5) cfgScenario emptyWorld
      = [.record rowScenario] :=
  ⟨rfl,
    ((header_skip_once jsonToy fileLibToy (logCollector 500 5) cfgScenario emptyWorld
      logBytes rfl).1 rfl ["Time"] [.record rowScenario] rfl).1⟩

/-- C14 (amended): offsets.  When today's log opens with the given content and the pass
returns no error, the stored offset for the path after the pass is the larger of the
offset stored before and the length of the content: it is the end of the file whenever
the offset stored before lies within the content, and it stays beyond the end of a file
shorter than that offset.  A second pass that finds the same path and the same content
(the reader yielding nothing on no bytes) goes through no row: it returns no error and
leaves the trace, the pending directory and the stored offsets as they are.  And for
every path the stored offset after any pass, drain or sequence of them is at least what
it was. -/
theorem offset_end_of_file (J : Json) (F : FileLib) (E : Env σ) (cfg : Config)
    (w : World σ) (content : List UInt8)
    (hopen : todayLog F E cfg w = .opened content)
    (hok : (processPapercutLogs J F E cfg w).1 = none)
    (hpath : todayPath F E cfg (processPapercutLogs J F E cfg w).2 = todayPath F E cfg w)
    (hfile : todayLog F E cfg (processPapercutLogs J F E cfg w).2 = .opened content)
    (hempty : F.csvReadAll [] = []) :
    (processPapercutLogs J F E cfg w).2.lastReadOffsets (todayPath F E cfg w)
      = some (max (storedOffset w (todayPath F E cfg w)) content.length) ∧
    (storedOffset w (todayPath F E cfg w) ≤ content.length →
      (processPapercutLogs J F E cfg w).2.lastReadOffsets (todayPath F E cfg w)
        = some content.length) ∧
    tailRows F E cfg (processPapercutLogs J F E cfg w).2 = [] ∧
    (processPapercutLogs J F E cfg (processPapercutLogs J F E cfg w).2).1 = none ∧
    (processPapercutLogs J F E cfg (processPapercutLogs J F E cfg w).2).2.trace
      = (processPapercutLogs J F E cfg w).2.trace ∧
    (processPapercutLogs J F E cfg (processPapercutLogs J F E cfg w).2).2.pending
      = (processPapercutLogs J F E cfg w).2.pending ∧
    (processPapercutLogs J F E cfg (processPapercutLogs J F E cfg w).2).2.lastReadOffsets
      = (processPapercutLogs J F E cfg w).2.lastReadOffsets ∧
    (∀ (w2 : World σ) (p : String),
      storedOffset w2 p ≤ storedOffset (processPapercutLogs J F E cfg w2).2 p) ∧
    (∀ (w2 : World σ) (ops : List Op) (p : String),
      storedOffset w2 p ≤ storedOffset (runOps J F E cfg ops w2) p) := by
  have h1 : (processPapercutLogs J F E cfg w).2.lastReadOffsets (todayPath F E cfg w)
      = some (max (storedOffset w (todayPath F E cfg w)) content.length) := by
    have hp := pass_opened J F E cfg w content hopen
    cases hs : skipHeader (storedOffset w (todayPath F E cfg w))
      (F.csvReadAll (content.drop (storedOffset w (todayPath F E cfg w)))) with
    | none =>
      rw [hs] at hp
      rw [hp] at hok
      exact absurd hok (by simp)
    | some rows =>
      rw [hs] at hp
      rw [hp]
      simp
  have hso : storedOffset (processPapercutLogs J F E cfg w).2
      (todayPath F E cfg (processPapercutLogs J F E cfg w).2)
      = max (storedOffset w (todayPath F E cfg w)) content.length := by
    rw [hpath]; simp [storedOffset, h1]
  have hskip : skipHeader (max (storedOffset w (todayPath F E cfg w)) content.length)
      (F.csvReadAll
        (content.drop (max (storedOffset w (todayPath F E cfg w)) content.length)))
      = some [] := by
    rw [List.drop_eq_nil_of_le (le_max_right _ _), hempty]
    unfold skipHeader
    split_ifs <;> rfl
  have hp2 := pass_opened J F E cfg (processPapercutLogs J F E cfg w).2 content hfile
  have ht2 := tailRows_opened F E cfg (processPapercutLogs J F E cfg w).2 content hfile
  rw [hso, hskip] at hp2 ht2
  simp only at hp2
  refine ⟨h1, fun hoff => by rw [h1, max_eq_right hoff], by simpa using ht2, ?_, ?_, ?_, ?_,
    fun w2 p => pass_offsets_mono J F E cfg w2 p,
    fun w2 ops p => runOps_offsets_mono J F E cfg ops p w2⟩
  · rw [hp2]
  · rw [hp2]; rfl
  · rw [hp2]; rfl
  · rw [hp2]
    simp only [max_eq_left (le_max_right _ _)]
    rw [hpath, ← h1]
    exact Function.update_eq_self _ _

/-- C14, witness: a pass over the four-byte log of `logCollector` from the empty world,
and a second pass over the same log. -/
theorem offset_end_of_file_witness :
    todayLog fileLibToy (logCollector 500 5) cfgScenario emptyWorld = .opened logBytes ∧
    (processPapercutLogs jsonToy fileLibToy (logCollector 500 5) cfgScenario
        emptyWorld).1 = none ∧
    fileLibToy.csvReadAll [] = [] ∧
    (processPapercutLogs jsonToy fileLibToy (logCollector 500 5) cfgScenario
        emptyWorld).2.lastReadOffsets
      (todayPath fileLibToy (logCollector 500 5) cfgScenario emptyWorld) = some 4 :=
  ⟨rfl, by decide, rfl,
    (offset_end_of_file jsonToy fileLibToy (logCollector 500 5) cfgScenario emptyWorld
      logBytes rfl (by decide) rfl rfl rfl).2.1 (by decide)⟩

/-- C14 as stated fails.  A first pass over a log of ten bytes stores offset 10 for the
path; the log is then found with four bytes (the file was replaced by a shorter one).
The next pass returns no error, goes through no row and leaves the stored offset at 10,
which is not the end of the file. -/
theorem offset_end_of_file_counterexample :
    todayLog fileLibToy longLog cfgScenario emptyWorld
      = .opened [104, 10, 114, 10, 114, 10, 114, 10, 114, 10] ∧
    truncatedWorld = (processPapercutLogs jsonToy fileLibToy longLog cfgScenario
      emptyWorld).2 ∧
    todayLog fileLibToy (logCollector 201 5) cfgScenario truncatedWorld
      = .opened logBytes ∧
    logBytes.length = 4 ∧
    storedOffset truncatedWorld (todayPath fileLibToy (logCollector 201 5) cfgScenario
      truncatedWorld) = 10 ∧
    (processPapercutLogs jsonToy fileLibToy (logCollector 201 5) cfgScenario
      truncatedWorld).1 = none ∧
    tailRows fileLibToy (logCollector 201 5) cfgScenario truncatedWorld = [] ∧
    (processPapercutLogs jsonToy fileLibToy (logCollector 201 5) cfgScenario
      truncatedWorld).2.lastReadOffsets
        (todayPath fileLibToy (logCollector 201 5) cfgScenario truncatedWorld)
      = some 10 :=
  ⟨rfl, rfl, rfl, by decide, by decide, by decide, by decide, by decide⟩

end PrintWatch
